import Mathlib

/-!
# Thread-isolation helper (tif): quiescence wait, core selection, jitter harness

Shallow embedding of `tif_helper.c`, `tif_jitter.c`, `tif_example.c` and
`tif_test.c`.

Conventions of the embedding.
* Calls into the operating system are inputs of the model.  The values that
  successive calls of a function return are given as a stream indexed by the
  call number (`Kernel.clock`, `Kernel.tick`), or as a plain argument when the
  function is called once.
* `long` and `int` values are `Int`.  The signed arithmetic of the code is
  `t2 - t1` on two readings of `CLOCK_MONOTONIC` in microseconds, which cannot
  leave the range of `long`; and `tests_done++` and `p * runtime_perc`, which
  can leave the range of `int` and are reduced by `wrapInt`, as is the value
  `atoi` returns.
* `uint64_t` values are `Nat` below `2 ^ 64`; every `uint64_t` operation of the
  code is reduced modulo `2 ^ 64`.
* A loop whose number of iterations depends on the environment takes a
  `fuel` argument and returns `none` when the fuel does not suffice.
-/

namespace Tif

/-! ## tif_helper.c: `nohz_wait` -/

/-- What `nohz_wait` does to its environment, in program order. -/
inductive Event where
  /-- One call of `is_tick_stopped(cpu)` together with the value it returned. -/
  | poll (value : Int)
  /-- One call of `toggle_affinity()`: `set_cpu_affinity(0, 0)` followed by
  `set_cpu_affinity(cpu, 0)`, the only place where `nohz_wait` touches the
  affinity of the calling thread. -/
  | toggle_affinity
  deriving DecidableEq, Repr

/-- The environment of one thread calling into `tif_helper.c`.
`clock n` is the value of the `n`-th call of the static `get_time()` of
`tif_helper.c` (microseconds of `CLOCK_MONOTONIC`), counted from `0`; the
reading that follows the last one a call of `nohz_wait` consumed is the time
at which that call has returned.  `tick n` is the value of the `n`-th call of
`is_tick_stopped(cpu)`: `1` stopped, `-1` not available, anything else not
stopped. -/
structure Kernel where
  clock : Nat → Int
  tick : Nat → Int

/-- The environment seen by the code that runs after `samples` clock readings
and `polls` calls of `is_tick_stopped` have been consumed. -/
def Kernel.after (k : Kernel) (samples polls : Nat) : Kernel :=
  { clock := fun n => k.clock (n + samples), tick := fun n => k.tick (n + polls) }

/-- A finished call of `nohz_wait`: the value returned, the number of calls of
`is_tick_stopped` made, the last value of the local `t2`, and the events in
program order. -/
structure WaitResult where
  ret : Int
  polls : Nat
  t2 : Int
  trace : List Event
  deriving DecidableEq, Repr

/-- The `do { ... } while (t2 - t1 < usecs)` loop of `nohz_wait`, entered for
iteration number `i` (from `0`) with the events `tr` behind it.  Iteration `i`
reads `clock (i + 1)` into `t2` (reading `0` is `t1`) and then polls `tick i`. -/
def nohz_wait_loop (usecs forced : Int) (k : Kernel) (t1 : Int) :
    Nat → Nat → List Event → Option WaitResult
  | 0, _, _ => none
  | fuel + 1, i, tr =>
    let t2 := k.clock (i + 1)
    let tick_stopped := k.tick i
    let tr1 := tr ++ [Event.poll tick_stopped]
    if tick_stopped = -1 then
      some { ret := -2, polls := i + 1, t2 := t2, trace := tr1 }
    else if tick_stopped = 1 then
      some { ret := 0, polls := i + 1, t2 := t2, trace := tr1 }
    else
      let tr2 := if forced ≠ 0 then tr1 ++ [Event.toggle_affinity] else tr1
      if t2 - t1 < usecs then
        nohz_wait_loop usecs forced k t1 fuel (i + 1) tr2
      else
        some { ret := -1, polls := i + 1, t2 := t2, trace := tr2 }

/-- `long nohz_wait(long usecs, int forced)`: `t1 = get_time()`, then the
loop.  `none` when `fuel` iterations do not reach a `return`. -/
def nohz_wait (usecs forced : Int) (k : Kernel) (fuel : Nat) : Option WaitResult :=
  nohz_wait_loop usecs forced k (k.clock 0) fuel 0 []

/-- Number of forcing steps in a trace. -/
def forcings (tr : List Event) : Nat :=
  tr.count Event.toggle_affinity

/-- The events of iteration `i` alone: the poll, and after it one forcing step
when `forced` is non-zero and the poll reported neither `-1` nor `1`. -/
def iterEvents (forced : Int) (k : Kernel) (i : Nat) : List Event :=
  Event.poll (k.tick i) ::
    (if forced ≠ 0 ∧ k.tick i ≠ -1 ∧ k.tick i ≠ 1 then [Event.toggle_affinity] else [])

/-- The events of iterations `0 .. n - 1`. -/
def expectedTrace (forced : Int) (k : Kernel) : Nat → List Event
  | 0 => []
  | n + 1 => expectedTrace forced k n ++ iterEvents forced k n

/-- Polls among the first `n` that reported the tick not stopped (neither `-1`
nor `1`). -/
def notStoppedPolls (k : Kernel) (n : Nat) : Nat :=
  ((List.range n).filter (fun i => decide (k.tick i ≠ -1 ∧ k.tick i ≠ 1))).length

/-- Wall-clock cost of iteration `i` of the loop of `nohz_wait`: from the clock
reading that opens it to the next reading, which is the one of iteration
`i + 1` or, for the last iteration, the time at which the call has returned. -/
def iterCost (k : Kernel) (i : Nat) : Int :=
  k.clock (i + 2) - k.clock (i + 1)

/-- Time from the reading `t1` taken at entry to the moment the call `r` has
returned: the reading a caller takes right after the call, as `main` of
tif_test.c does. -/
def elapsedAtReturn (k : Kernel) (r : WaitResult) : Int :=
  k.clock (r.polls + 1) - k.clock 0

/-- A thread on which every iteration of the loop costs 10 microseconds and the
tick never stops: readings `0, 0, 10, 20, 30, ...`. -/
def steadyKernel : Kernel :=
  { clock := fun n => 10 * ((n - 1 : Nat) : Int), tick := fun _ => 0 }

/-- A thread whose third poll reports the tick stopped; readings `0, 1, 2, ...`. -/
def thirdPollKernel : Kernel :=
  { clock := fun n => n, tick := fun n => if n = 2 then 1 else 0 }

/-- What `nohz_wait(100, 1)` does on `thirdPollKernel`. -/
def thirdPollResult : WaitResult :=
  { ret := 0, polls := 3, t2 := 3,
    trace := [Event.poll 0, Event.toggle_affinity, Event.poll 0, Event.toggle_affinity,
              Event.poll 1] }

/-! ## C library text functions used by tif_helper.c -/

/-- `isspace` in the C locale. -/
def isspace (c : Char) : Bool :=
  c = ' ' || c = '\t' || c = '\n' || c = '\x0b' || c = '\x0c' || c = '\r'

/-- `isdigit`. -/
def isdigit (c : Char) : Bool :=
  decide ('0' ≤ c) && decide (c ≤ '9')

/-- The decimal digits at the front of `s`, read on top of `acc`. -/
def digitsValue : List Char → Nat → Nat
  | [], acc => acc
  | c :: cs, acc => if isdigit c then digitsValue cs (acc * 10 + (c.toNat - 48)) else acc

/-- An `int` result as a two's-complement machine computes it: the value is
brought back into `-2 ^ 31 .. 2 ^ 31 - 1` modulo `2 ^ 32`.  C leaves a signed
overflow undefined; this is what the arithmetic of the compiled code yields,
and what the conversion of a `long` to `int` yields. -/
def wrapInt (x : Int) : Int :=
  (x + 2 ^ 31) % 2 ^ 32 - 2 ^ 31

/-- `strtol(s, NULL, 10)`: white space is skipped, one sign is accepted, then
the decimal digits are read up to the first other character; `0` when there is
no digit; a value outside the range of `long` is replaced by `LONG_MIN` or
`LONG_MAX`. -/
def strtol (s : List Char) : Int :=
  let v : Int :=
    match s.dropWhile isspace with
    | '-' :: cs => -(digitsValue cs 0 : Int)
    | '+' :: cs => (digitsValue cs 0 : Int)
    | cs => (digitsValue cs 0 : Int)
  if v < -(2 ^ 63) then -(2 ^ 63) else if 2 ^ 63 - 1 < v then 2 ^ 63 - 1 else v

/-- `atoi(s)`, which the C library computes as `(int) strtol(s, NULL, 10)`: the
value of `strtol` brought into the range of `int`. -/
def atoi (s : List Char) : Int :=
  wrapInt (strtol s)

/-- At most `n` characters of the first line, the newline included. -/
def takeLine : Nat → List Char → List Char
  | 0, _ => []
  | _ + 1, [] => []
  | n + 1, c :: cs => if c = '\n' then [c] else c :: takeLine n cs

/-- `fgets(str, size, fp)` on a file just opened whose content is `content`:
`none` (NULL) at end of file, else at most `size - 1` characters of the first
line. -/
def fgets (size : Nat) (content : List Char) : Option (List Char) :=
  if content = [] then none else some (takeLine (size - 1) content)

/-! ## tif_helper.c: core selection -/

/-- `struct bitmask` of libnuma: `size` bits, bit `n` set when `bits n`. -/
structure bitmask where
  size : Nat
  bits : Nat → Bool

/-- `numa_bitmask_isbitset(bmp, n)` of libnuma, `n` an `unsigned int`. -/
def numa_bitmask_isbitset (bmp : bitmask) (n : Nat) : Int :=
  if n < bmp.size ∧ bmp.bits n = true then 1 else 0

/-- Conversion of an `int` argument to `unsigned int`. -/
def toUnsigned (x : Int) : Nat :=
  (x % 2 ^ 32).toNat

/-- `strtok(str, "\n")` for a `str` that does not start with a newline: the
string is cut at its first newline. -/
def strtok_newline (str : List Char) : List Char :=
  str.takeWhile (fun c => c ≠ '\n')

/-- `get_nohz_full_cpu_mask()`.  `file` is the content of
`/sys/devices/system/cpu/nohz_full`, `none` when it cannot be opened;
`parse` is `numa_parse_cpustring_all` of libnuma, `none` for NULL. -/
def get_nohz_full_cpu_mask (parse : List Char → Option bitmask)
    (file : Option (List Char)) : Option bitmask :=
  match file with
  | none => none
  | some content =>
    match fgets 128 content with
    | none => none
    | some str =>
      if str.head? = some (Char.ofNat 0) ∨ str.head? = some '\n' then none
      else parse (strtok_newline str)

/-- `is_nohz_cpu(cpu)`. -/
def is_nohz_cpu (parse : List Char → Option bitmask) (file : Option (List Char))
    (cpu : Int) : Int :=
  match get_nohz_full_cpu_mask parse file with
  | none => 0
  | some c => if cpu ≠ 0 ∧ numa_bitmask_isbitset c (toUnsigned cpu) ≠ 0 then 1 else 0

/-- `get_nohz_full_cpu()`, on the content of
`/sys/devices/system/cpu/nohz_full` (`none` when it cannot be opened). -/
def get_nohz_full_cpu (file : Option (List Char)) : Int :=
  match file with
  | none => -1
  | some content =>
    match fgets 128 content with
    | none => -1
    | some str =>
      let c := atoi str
      if c ≠ 0 then c else -1

/-- Core `core` is in the set the mask stands for. -/
def bitmask.contains (c : bitmask) (core : Nat) : Prop :=
  core < c.size ∧ c.bits core = true

instance (c : bitmask) (core : Nat) : Decidable (c.contains core) := by
  unfold bitmask.contains; infer_instance

/-- A libnuma parser stand-in for concrete runs: whatever the text, the mask
of 8 cores with cores 2 and 3 set. -/
def parseTwoThree (_ : List Char) : Option bitmask :=
  some { size := 8, bits := fun n => n = 2 || n = 3 }

/-! ### The format of the core list

`/sys/devices/system/cpu/nohz_full` holds one line: the entries of the list in
ascending order, separated by commas, each a core number or a range `lo-hi`. -/

/-- One entry of a core list. -/
inductive CpuEntry where
  | single (n : Nat)
  | range (lo hi : Nat)
  deriving DecidableEq, Repr

/-- The lowest core of an entry. -/
def CpuEntry.first : CpuEntry → Nat
  | .single n => n
  | .range lo _ => lo

/-- The highest core of an entry. -/
def CpuEntry.last : CpuEntry → Nat
  | .single n => n
  | .range _ hi => hi

/-- Core `m` is listed by the entry. -/
def CpuEntry.lists (e : CpuEntry) (m : Nat) : Prop :=
  e.first ≤ m ∧ m ≤ e.last

instance (e : CpuEntry) (m : Nat) : Decidable (e.lists m) := by
  unfold CpuEntry.lists; infer_instance

/-- The character of a decimal digit. -/
def digitChar : Nat → Char
  | 0 => '0' | 1 => '1' | 2 => '2' | 3 => '3' | 4 => '4'
  | 5 => '5' | 6 => '6' | 7 => '7' | 8 => '8' | _ => '9'

/-- A number in decimal, as the kernel prints it. -/
def renderNat (n : Nat) : List Char :=
  if n = 0 then ['0'] else (Nat.digits 10 n).reverse.map digitChar

/-- An entry as the kernel prints it. -/
def CpuEntry.render : CpuEntry → List Char
  | .single n => renderNat n
  | .range lo hi => renderNat lo ++ '-' :: renderNat hi

/-- A core list as the kernel prints it, without the final newline. -/
def renderCpuList : List CpuEntry → List Char
  | [] => []
  | [e] => e.render
  | e :: e2 :: es => e.render ++ ',' :: renderCpuList (e2 :: es)

/-- The entries are in ascending order: no entry is empty and each ends before
the next begins. -/
def Ascending (es : List CpuEntry) : Prop :=
  (∀ e ∈ es, e.first ≤ e.last) ∧ es.Pairwise (fun a b => a.last < b.first)

/-! ## The callers of `nohz_wait` -/

/-- One finished call of `nohz_wait` as its caller sees it: the two arguments
and the value returned. -/
structure WaitCall where
  usecs : Int
  forced : Int
  ret : Int
  deriving DecidableEq, Repr

/-- Every wait begun at any point of the thread's run has an iteration that
ends it: a poll reporting -1 or 1, or a clock reading `usecs` past the one taken
at entry.  It holds of every clock that grows without bound. -/
def Kernel.Live (k : Kernel) : Prop :=
  ∀ (s p : Nat) (usecs : Int),
    ∃ n, k.tick (n + p) = -1 ∨ k.tick (n + p) = 1 ∨ usecs ≤ k.clock (n + 1 + s) - k.clock s

/-- The statements
`ret = nohz_wait(5000, 0); if (ret < 0) ret = nohz_wait(5000000, 1);`
that `rt_thread` (tif_jitter.c, lines 156-160) and `main` of tif_example.c
(lines 96-100) both contain: the final `ret` and the calls made.  The second
call sees the environment left by the first, which consumed one clock reading
at entry and one per poll. -/
def wait_then_force (k : Kernel) (fuel : Nat) : Option (Int × List WaitCall) :=
  match nohz_wait 5000 0 k fuel with
  | none => none
  | some w1 =>
    if w1.ret < 0 then
      match nohz_wait 5000000 1 (k.after (w1.polls + 1) w1.polls) fuel with
      | none => none
      | some w2 =>
        some (w2.ret, [{ usecs := 5000, forced := 0, ret := w1.ret },
                       { usecs := 5000000, forced := 1, ret := w2.ret }])
    else
      some (w1.ret, [{ usecs := 5000, forced := 0, ret := w1.ret }])

/-! ### tif_jitter.c: `rt_thread` -/

/-- `struct thread_data`. -/
structure thread_data where
  jitter : Nat
  cpu : Int
  ret : Int
  deriving DecidableEq, Repr

/-- The environment of one run of `rt_thread`: the values returned by
`set_cpu_affinity(td->cpu, 0)` and `set_sched_fifo(0)`, the kernel as
`nohz_wait` sees it, and `stamp n`, the time at the `n`-th call of the
`get_time()` of tif_jitter.c (TSC ticks or nanoseconds). -/
structure ThreadEnv where
  set_cpu_affinity : Int
  set_sched_fifo : Int
  kernel : Kernel
  stamp : Nat → Nat

/-- The `get_time()` of tif_jitter.c at its `n`-th call: a `uint64_t`. -/
def get_time (stamp : Nat → Nat) (n : Nat) : Nat :=
  stamp n % 2 ^ 64

/-- `diff = end - start` of iteration `l` of the workload loop, in `uint64_t`:
the timestamps are calls `2 * l` and `2 * l + 1` of `get_time()`. -/
def duration (stamp : Nat → Nat) (l : Nat) : Nat :=
  (get_time stamp (2 * l + 1) + 2 ^ 64 - get_time stamp (2 * l)) % 2 ^ 64

/-- The loop `for (l = 0; l < num_loops; l++)` of `rt_thread` with `n`
iterations to go, entered for iteration `l` with the locals `max` and `min`;
each iteration calls `nohz_workload()` once.  Returns the final `(max, min)`. -/
def workload_loop (stamp : Nat → Nat) : Nat → Nat → Nat → Nat → Nat × Nat
  | 0, _, max, min => (max, min)
  | n + 1, l, max, min =>
    let diff := duration stamp l
    let max1 := if diff > max then diff else max
    let min1 := if diff < min then diff else min
    workload_loop stamp n (l + 1) max1 min1

/-- One finished run of `rt_thread`: the record it leaves in `*arg`, the calls
of `nohz_wait` it made and the number of calls of `nohz_workload`. -/
structure ThreadRun where
  td : thread_data
  waits : List WaitCall
  workloads : Nat
  deriving DecidableEq, Repr

/-- `rt_thread(arg)` with `*arg = td` and the global `num_loops`. -/
def rt_thread (env : ThreadEnv) (num_loops : Int) (fuel : Nat) (td : thread_data) :
    Option ThreadRun :=
  let td0 := { td with ret := 0 }
  if env.set_cpu_affinity < 0 then
    some { td := { td0 with ret := -1 }, waits := [], workloads := 0 }
  else if env.set_sched_fifo < 0 then
    some { td := { td0 with ret := -1 }, waits := [], workloads := 0 }
  else
    match wait_then_force env.kernel fuel with
    | none => none
    | some (ret, waits) =>
      if ret < 0 then
        some { td := { td0 with ret := -1 }, waits := waits, workloads := 0 }
      else
        let mm := workload_loop env.stamp num_loops.toNat 0 0 (2 ^ 64 - 1)
        some { td := { td0 with jitter := (mm.1 + 2 ^ 64 - mm.2) % 2 ^ 64 },
               waits := waits, workloads := num_loops.toNat }

/-! ### tif_example.c and tif_test.c: `main` -/

/-- The environment of `main` of tif_example.c and of tif_test.c: the value
returned by `nohz_enter()`, the content of the nohz_full file, the values
returned by `set_cpu_affinity(nohz_cpu, 0)` and `set_sched_fifo(0)`, and the
kernel as `nohz_wait` sees it. -/
structure ProcessEnv where
  nohz_enter : Int
  nohz_full : Option (List Char)
  set_cpu_affinity : Int
  set_sched_fifo : Int
  kernel : Kernel

/-- One finished run of a `main`: the exit status (the value returned by `main`
or the argument of `exit`), the calls of `nohz_wait` and the number of calls of
`nohz_exit`. -/
structure MainRun where
  status : Int
  waits : List WaitCall
  nohz_exit_calls : Nat
  deriving DecidableEq, Repr

/-- `main` of tif_example.c.  Every path reaches the label `ext`, calls
`nohz_exit()` and returns 0. -/
def example_main (env : ProcessEnv) (fuel : Nat) : Option MainRun :=
  if env.nohz_enter ≠ 0 then
    some { status := 0, waits := [], nohz_exit_calls := 1 }
  else if get_nohz_full_cpu env.nohz_full < 0 then
    some { status := 0, waits := [], nohz_exit_calls := 1 }
  else if env.set_cpu_affinity < 0 then
    some { status := 0, waits := [], nohz_exit_calls := 1 }
  else if env.set_sched_fifo < 0 then
    some { status := 0, waits := [], nohz_exit_calls := 1 }
  else
    match wait_then_force env.kernel fuel with
    | none => none
    | some (ret, waits) =>
      if ret < 0 then
        some { status := 0, waits := waits, nohz_exit_calls := 1 }
      else
        some { status := 0, waits := waits, nohz_exit_calls := 1 }

/-- `MAX_WAIT_US` of tif_test.c. -/
def MAX_WAIT_US : Int := 15000000

/-- `main` of tif_test.c: one call `nohz_wait(MAX_WAIT_US, 0)`; on failure
`nohz_exit(); exit(-1);`, else the label `ext`. -/
def test_main (env : ProcessEnv) (fuel : Nat) : Option MainRun :=
  if env.nohz_enter ≠ 0 then
    some { status := 0, waits := [], nohz_exit_calls := 1 }
  else if get_nohz_full_cpu env.nohz_full < 0 then
    some { status := 0, waits := [], nohz_exit_calls := 1 }
  else if env.set_cpu_affinity < 0 then
    some { status := 0, waits := [], nohz_exit_calls := 1 }
  else if env.set_sched_fifo < 0 then
    some { status := 0, waits := [], nohz_exit_calls := 1 }
  else
    match nohz_wait MAX_WAIT_US 0 env.kernel fuel with
    | none => none
    | some w =>
      if w.ret < 0 then
        some { status := -1, waits := [{ usecs := MAX_WAIT_US, forced := 0, ret := w.ret }],
               nohz_exit_calls := 1 }
      else
        some { status := 0, waits := [{ usecs := MAX_WAIT_US, forced := 0, ret := w.ret }],
               nohz_exit_calls := 1 }

/-- A thread on which the tick never stops and every clock reading is 15
seconds after the one before: each wait times out at its first poll. -/
def neverStoppedKernel : Kernel :=
  { clock := fun n => 15000000 * (n : Int), tick := fun _ => 0 }

/-- A process whose setup succeeds (nohz_full list `2-3`) on
`neverStoppedKernel`. -/
def neverStoppedProcess : ProcessEnv :=
  { nohz_enter := 0, nohz_full := some ['2', '-', '3', '\n'], set_cpu_affinity := 0,
    set_sched_fifo := 0, kernel := neverStoppedKernel }

/-- A thread whose setup succeeds on `neverStoppedKernel`, with timestamps
`0, 10, 20, 30, ...`. -/
def neverStoppedThread : ThreadEnv :=
  { set_cpu_affinity := 0, set_sched_fifo := 0, kernel := neverStoppedKernel,
    stamp := fun n => 10 * n }

/-- The calling convention of the two-phase wait: one unforced call with a
budget of 5000 microseconds that did not fail, or that call failing followed
by one forced call with a budget of 5000000 microseconds. -/
def TwoPhase (waits : List WaitCall) : Prop :=
  (∃ r1, 0 ≤ r1 ∧ waits = [{ usecs := 5000, forced := 0, ret := r1 }]) ∨
  (∃ r1 r2, r1 < 0 ∧ waits = [{ usecs := 5000, forced := 0, ret := r1 },
                              { usecs := 5000000, forced := 1, ret := r2 }])

/-- Every step of `main` (tif_example.c, tif_test.c) before the wait
succeeds. -/
def ProcessEnv.setup_ok (env : ProcessEnv) : Prop :=
  env.nohz_enter = 0 ∧ 0 ≤ get_nohz_full_cpu env.nohz_full ∧ 0 ≤ env.set_cpu_affinity ∧
    0 ≤ env.set_sched_fifo

/-- Both setup calls of `rt_thread` succeed. -/
def ThreadEnv.setup_ok (env : ThreadEnv) : Prop :=
  0 ≤ env.set_cpu_affinity ∧ 0 ≤ env.set_sched_fifo

/-- What `rt_thread` leaves behind when it fails after the calls `waits`. -/
def failedRun (td : thread_data) (waits : List WaitCall) : ThreadRun :=
  { td := { td with ret := -1 }, waits := waits, workloads := 0 }

/-- The run of `rt_thread` on `neverStoppedThread` entered with
`td = {7, 2, 5}`: both waits time out. -/
def timedOutRun : ThreadRun :=
  { td := ⟨7, 2, -1⟩,
    waits := [{ usecs := 5000, forced := 0, ret := -1 },
              { usecs := 5000000, forced := 1, ret := -1 }],
    workloads := 0 }

/-! ### tif_jitter.c: the accumulators and `main` -/

/-- The globals `cmax`, `cmin`, `avg` (`uint64_t`) and `tests_done` (`int`). -/
structure Stats where
  cmax : Nat
  cmin : Nat
  avg : Nat
  tests_done : Int
  deriving DecidableEq, Repr

/-- `uint64_t cmax, cmin = -1, avg; int tests_done;` at program start. -/
def Stats.init : Stats :=
  { cmax := 0, cmin := 2 ^ 64 - 1, avg := 0, tests_done := 0 }

/-- Lines 349-354 of `main`: the accumulators after a trial of jitter
`jitter`.  `avg += td.jitter` is a `uint64_t` addition and `tests_done++` an
`int` increment. -/
def record_jitter (s : Stats) (jitter : Nat) : Stats :=
  { cmax := if jitter > s.cmax then jitter else s.cmax
    cmin := if jitter < s.cmin then jitter else s.cmin
    avg := (s.avg + jitter) % 2 ^ 64
    tests_done := wrapInt (s.tests_done + 1) }

/-- One line printed by `print_jitter`: test number, jitter, max, min, mean. -/
structure Report where
  tests_done : Int
  jitter : Nat
  cmax : Nat
  cmin : Nat
  mean : Nat
  deriving DecidableEq, Repr

/-- `print_jitter(jitter)`: the mean printed is `avg/tests_done`, a `uint64_t`
division with `tests_done` converted to `uint64_t`. -/
def print_jitter (s : Stats) (jitter : Nat) : Report :=
  { tests_done := s.tests_done, jitter := jitter, cmax := s.cmax, cmin := s.cmin,
    mean := s.avg / (s.tests_done % 2 ^ 64).toNat }

/-- The environment of `main` of tif_jitter.c: the value returned by
`parse_args` and the globals it leaves, the value returned by `nohz_enter()`,
the value of the `n`-th call of `time_expired()` and of `pthread_create`, the
environment of the `n`-th worker thread, and the content of the local `td`
before the first trial. -/
structure JitterEnv where
  parse_args : Int
  duration : Int
  num_tests : Int
  num_loops : Int
  nohz_cpu : Int
  nohz_enter : Int
  time_expired : Nat → Int
  pthread_create : Nat → Int
  thread : Nat → ThreadEnv
  td : thread_data

/-- The way `main` of tif_jitter.c leaves its loop or ends before it. -/
inductive Ending where
  /-- `parse_args` failed: `goto ext`. -/
  | args
  /-- `nohz_enter` failed: `goto ext`. -/
  | enter
  /-- `pthread_create` failed: `exit(EXIT_FAILURE)`. -/
  | create
  /-- The trial reported `td.ret == -1`: `goto ext`. -/
  | trial
  /-- The stop condition was met: `break`. -/
  | stop
  deriving DecidableEq, Repr

/-- The test at the head of the loop of `main`: with a duration set, the
`i`-th call of `time_expired()`; otherwise `tests_done >= num_tests`. -/
def stop_requested (env : JitterEnv) (i : Nat) (s : Stats) : Bool :=
  if env.duration ≠ 0 then decide (env.time_expired i ≠ 0)
  else decide (s.tests_done ≥ env.num_tests)

/-- The `for (;;)` loop of `main`, entered for iteration `i` (from 0) with the
local `td`, the accumulators `s` and the lines printed so far.  `wfuel` is the
fuel of each worker thread, the first `Nat` argument the fuel of the loop. -/
def campaign_loop (env : JitterEnv) (wfuel : Nat) :
    Nat → Nat → thread_data → Stats → List Report → Option (Ending × Stats × List Report)
  | 0, _, _, _, _ => none
  | fuel + 1, i, td, s, reports =>
    if stop_requested env i s then
      some (Ending.stop, s, reports)
    else
      let td1 := { td with cpu := env.nohz_cpu }
      if env.pthread_create i ≠ 0 then
        some (Ending.create, s, reports)
      else
        match rt_thread (env.thread i) env.num_loops wfuel td1 with
        | none => none
        | some run =>
          if run.td.ret = -1 then
            some (Ending.trial, s, reports)
          else
            let s1 := record_jitter s run.td.jitter
            campaign_loop env wfuel fuel (i + 1) run.td s1
              (reports ++ [print_jitter s1 run.td.jitter])

/-- One finished run of `main` of tif_jitter.c: the exit status, the way it
ended, the number of calls of `nohz_exit` (each made by `cleanup`), the
accumulators and the lines printed by `print_jitter`. -/
structure JitterRun where
  status : Int
  ending : Ending
  nohz_exit_calls : Nat
  stats : Stats
  reports : List Report
  deriving DecidableEq, Repr

/-- `main` of tif_jitter.c.  The label `ext` calls `cleanup()`, which calls
`nohz_exit()` once, and returns 0; a failing `pthread_create` calls
`exit(EXIT_FAILURE)` inside the loop. -/
def jitter_main (env : JitterEnv) (wfuel fuel : Nat) : Option JitterRun :=
  if env.parse_args ≠ 0 then
    some { status := 0, ending := Ending.args, nohz_exit_calls := 1, stats := Stats.init,
           reports := [] }
  else if env.nohz_enter ≠ 0 then
    some { status := 0, ending := Ending.enter, nohz_exit_calls := 1, stats := Stats.init,
           reports := [] }
  else
    match campaign_loop env wfuel fuel 0 env.td Stats.init [] with
    | none => none
    | some (Ending.create, s, reports) =>
      some { status := 1, ending := Ending.create, nohz_exit_calls := 0, stats := s,
             reports := reports }
    | some (e, s, reports) =>
      some { status := 0, ending := e, nohz_exit_calls := 1, stats := s, reports := reports }

/-- The durations measured by one trial of `n` loops. -/
def durations (stamp : Nat → Nat) (n : Nat) : List Nat :=
  (List.range n).map (duration stamp)

/-- A worker thread whose setup succeeds, whose first poll finds the tick
stopped, and which reads the timestamps `stamp`. -/
def quietThread (stamp : Nat → Nat) : ThreadEnv :=
  { set_cpu_affinity := 0, set_sched_fifo := 0,
    kernel := { clock := fun n => n, tick := fun _ => 1 }, stamp := stamp }

/-- A campaign of `num_tests` trials of `num_loops` loops on core 2 in which
worker thread `k` is `quietThread (stamp k)` and `pthread_create` returns
`create`. -/
def quietCampaign (num_tests num_loops : Int) (create : Int) (stamp : Nat → Nat → Nat) :
    JitterEnv :=
  { parse_args := 0, duration := 0, num_tests := num_tests, num_loops := num_loops,
    nohz_cpu := 2, nohz_enter := 0, time_expired := fun _ => 0,
    pthread_create := fun _ => create, thread := fun k => quietThread (stamp k),
    td := ⟨0, 0, 0⟩ }

/-- The value `max - min` that `rt_thread` stores in `td->jitter` after a
workload loop of `num_loops` iterations over the timestamps `stamp`. -/
def trial_jitter (stamp : Nat → Nat) (num_loops : Int) : Nat :=
  ((workload_loop stamp num_loops.toNat 0 0 (2 ^ 64 - 1)).1 + 2 ^ 64 -
    (workload_loop stamp num_loops.toNat 0 0 (2 ^ 64 - 1)).2) % 2 ^ 64

/-- The jitters of the `n` trials that start with trial `i` of a campaign. -/
def trialJitters (env : JitterEnv) (i n : Nat) : List Nat :=
  (List.range n).map (fun k => trial_jitter (env.thread (i + k)).stamp env.num_loops)

/-- The accumulators after trials of jitters `js`, starting from `s`. -/
def recordAll (s : Stats) (js : List Nat) : Stats :=
  js.foldl record_jitter s

/-- The lines `print_jitter` prints for trials of jitters `js`, starting from
the accumulators `s`. -/
def reportAll (s : Stats) : List Nat → List Report
  | [] => []
  | j :: js => print_jitter (record_jitter s j) j :: reportAll (record_jitter s j) js

/-- Timestamps of a trial of two loops with durations `0` and `2 ^ 63`, the
same in every trial. -/
def hugeStamps (_ : Nat) (n : Nat) : Nat :=
  if n = 3 then 2 ^ 63 else 0

/-- Timestamps `0, 10, 20, 30, ...`, the same in every trial. -/
def steadyStamps (_ : Nat) (n : Nat) : Nat :=
  10 * n

/-- The run of `main` on two trials of two loops with `steadyStamps`. -/
def steadyRun : JitterRun :=
  { status := 0, ending := Ending.stop, nohz_exit_calls := 1,
    stats := { cmax := 0, cmin := 0, avg := 0, tests_done := 2 },
    reports := [{ tests_done := 1, jitter := 0, cmax := 0, cmin := 0, mean := 0 },
                { tests_done := 2, jitter := 0, cmax := 0, cmin := 0, mean := 0 }] }

/-! ## tif_helper.c: the scheduler runtime -/

/-- The two files `set_sched_runtime` works on: the content of
`/proc/sys/kernel/sched_rt_period_us` (`none` when it cannot be opened) and
whether `/proc/sys/kernel/sched_rt_runtime_us` can be opened for writing. -/
structure SchedFiles where
  period : Option (List Char)
  runtime_writable : Bool

/-- The outcome of `set_sched_runtime`: the value returned and the `int` whose
decimal text (`sprintf(str, "%d", r)`) was written to `sched_rt_runtime_us`,
`none` when nothing was written. -/
structure SchedWrite where
  ret : Int
  written : Option Int
  deriving DecidableEq, Repr

/-- `set_sched_runtime(runtime_perc)`.  `p * runtime_perc` is an `int`
multiplication and `/ 100` the division of C, which truncates towards zero. -/
def set_sched_runtime (fs : SchedFiles) (runtime_perc : Int) : SchedWrite :=
  match fs.period with
  | none => { ret := -1, written := none }
  | some content =>
    match fgets 128 content with
    | none => { ret := -1, written := none }
    | some str =>
      let p := atoi str
      let r :=
        if runtime_perc < 100 then
          let perc := if runtime_perc < 95 then 95 else runtime_perc
          Int.tdiv (wrapInt (p * perc)) 100
        else -1
      if fs.runtime_writable = true then { ret := 0, written := some r }
      else { ret := -1, written := none }

/-- `nohz_enter()`: `set_sched_runtime(100)`, then, on success, the settle
delay `sleep(SCHED_RUNTIME_WAIT_SEC)`; returns -1 on error and 0 otherwise. -/
def nohz_enter (fs : SchedFiles) : SchedWrite :=
  let w := set_sched_runtime fs 100
  if w.ret ≠ 0 then { ret := -1, written := w.written } else { ret := 0, written := w.written }

/-- `nohz_exit()`: `return set_sched_runtime(95);`. -/
def nohz_exit (fs : SchedFiles) : SchedWrite :=
  set_sched_runtime fs 95

/-- The tunables of a system whose `sched_rt_period_us` reads `p` and whose
`sched_rt_runtime_us` can be written. -/
def schedFilesOf (p : Nat) : SchedFiles :=
  { period := some (renderNat p ++ ['\n']), runtime_writable := true }

/-! ## tif_helper.c: the tick-stopped indicator

A line is the C string `getline` returns, newline included; the text of
`/proc/timer_list` holds no NUL byte, so the end of the list of characters
stands for the terminating NUL. -/

/-- `getline` called until end of file, with `cur` the characters of the
current line read so far, in reverse: the lines in order, each with its
newline, the last one without when the text does not end in a newline. -/
def getlinesAux : List Char → List Char → List (List Char)
  | [], cur => if cur = [] then [] else [cur.reverse]
  | c :: cs, cur =>
    if c = '\n' then (c :: cur).reverse :: getlinesAux cs [] else getlinesAux cs (c :: cur)

/-- The lines of a text, as successive calls of `getline` return them. -/
def getlines (text : List Char) : List (List Char) :=
  getlinesAux text []

/-- The string `"cpu:"`. -/
def cpu_key : List Char := ['c', 'p', 'u', ':']

/-- The string `".tick_stopped"`. -/
def tick_key : List Char :=
  ['.', 't', 'i', 'c', 'k', '_', 's', 't', 'o', 'p', 'p', 'e', 'd']

/-- `is_cur_cpu_data(cpu, line)`: white space is skipped, and when the line
goes on with `cpu:` the number after it is compared with `cpu`. -/
def is_cur_cpu_data (cpu : Int) (line : List Char) : Int :=
  let l := line.dropWhile isspace
  if l.take 4 = cpu_key then (if cpu = atoi (l.drop 4) then 1 else 0) else 0

/-- `get_tick_stopped(line)`: white space is skipped; when the line goes on
with `.tick_stopped`, the characters up to the first colon are skipped, then
the colon, then one more character (`atoi(line+1)`), and `atoi` reads the
rest; otherwise -1. -/
def get_tick_stopped (line : List Char) : Int :=
  let l := line.dropWhile isspace
  if l ≠ [] ∧ l.take 13 = tick_key then
    let l1 := l.dropWhile (fun c => c ≠ ':')
    let l2 := if l1 ≠ [] then l1.drop 1 else l1
    atoi (l2.drop 1)
  else -1

/-- The inner `while (getline(...) != -1)` loop of `is_tick_stopped`: the
first value other than -1 that `get_tick_stopped` finds in the lines left, -1
when there is none. -/
def scan_tick_stopped : List (List Char) → Int
  | [] => -1
  | line :: rest =>
    let stopped := get_tick_stopped line
    if stopped ≠ -1 then stopped else scan_tick_stopped rest

/-- The outer `while (getline(...) != -1)` loop of `is_tick_stopped`: at the
first line that `is_cur_cpu_data` accepts the inner loop takes over the lines
that follow; -1 when no line is accepted. -/
def scan_cpu (cpu : Int) : List (List Char) → Int
  | [] => -1
  | line :: rest =>
    if is_cur_cpu_data cpu line ≠ 0 then scan_tick_stopped rest else scan_cpu cpu rest

/-- `is_tick_stopped(cpu)` on the content of `/proc/timer_list` (`none` when
it cannot be opened). -/
def is_tick_stopped (file : Option (List Char)) (cpu : Int) : Int :=
  match file with
  | none => -1
  | some text => scan_cpu cpu (getlines text)

/-! ### The format of the timer list -/

/-- `n` spaces. -/
def blanks (n : Nat) : List Char :=
  List.replicate n ' '

/-- One line of a timer list: the line `cpu: N` that opens the section of core
`N`; a line with the key `.tick_stopped`, after `indent` spaces, followed by
`pad` spaces, a colon, `sep` spaces and the value; or any other line. -/
inductive TimerLine where
  | header (cpu : Nat)
  | tick (indent pad sep value : Nat)
  | other (text : List Char)
  deriving DecidableEq, Repr

/-- A line without its newline. -/
def TimerLine.body : TimerLine → List Char
  | .header cpu => cpu_key ++ ' ' :: renderNat cpu
  | .tick indent pad sep value =>
    blanks indent ++ (tick_key ++ (blanks pad ++ ':' :: (blanks sep ++ renderNat value)))
  | .other text => text

/-- A line as it stands in the file. -/
def TimerLine.render (l : TimerLine) : List Char :=
  l.body ++ ['\n']

/-- The text of a timer list. -/
def renderTimerList : List TimerLine → List Char
  | [] => []
  | l :: ls => l.render ++ renderTimerList ls

/-- After its leading white space the line goes on with `key`. -/
def headed (key line : List Char) : Prop :=
  (line.dropWhile isspace).take key.length = key

instance (key line : List Char) : Decidable (headed key line) := by
  unfold headed; infer_instance

/-- The numbers of a line fit the `int` that `atoi` returns (core numbers and
the unsigned value the kernel prints for `.tick_stopped`), and a line of the
third kind is one line and is neither of the other two kinds: it holds no
newline and goes on, after its white space, neither with `cpu:` nor with
`.tick_stopped`. -/
def TimerLine.WellFormed : TimerLine → Prop
  | .header cpu => cpu < 2 ^ 31
  | .tick _ _ _ value => value < 2 ^ 31
  | .other text =>
    '\n' ∉ text ∧ ¬ headed cpu_key (text ++ ['\n']) ∧ ¬ headed tick_key (text ++ ['\n'])

/-- The line is not `cpu: N` nor a `.tick_stopped` line. -/
def TimerLine.isOther : TimerLine → Prop
  | .other _ => True
  | _ => False

instance (l : TimerLine) : Decidable l.WellFormed := by
  cases l <;> unfold TimerLine.WellFormed <;> infer_instance

instance (l : TimerLine) : Decidable l.isOther := by
  cases l <;> unfold TimerLine.isOther <;> infer_instance

/-- A timer list in the layout of the kernel, with the sections of cores 0 and
1: the tick of core 0 runs, the tick of core 1 is stopped. -/
def twoCoreTimerList : List TimerLine :=
  [TimerLine.other ['n', 'o', 'w', ' ', 'a', 't', ' ', '7'],
   TimerLine.header 0,
   TimerLine.other [' ', 'c', 'l', 'o', 'c', 'k', ' ', '0', ':'],
   TimerLine.tick 2 3 1 0,
   TimerLine.header 1,
   TimerLine.other [' ', 'c', 'l', 'o', 'c', 'k', ' ', '0', ':'],
   TimerLine.tick 2 3 1 1,
   TimerLine.other [' ', ' ', '.', 'i', 'd', 'l', 'e', '_', 'j', 'i', 'f', 'f', 'i', 'e', 's']]

/-- Timestamps `0, 10, 20, 33`, the same in every trial: two loops with the
durations 10 and 13. -/
def spreadStamps (_ : Nat) (n : Nat) : Nat :=
  if n = 0 then 0 else if n = 1 then 10 else if n = 2 then 20 else 33

/-- The run of `main` on two trials of two loops with `spreadStamps`: jitter 3
in both trials. -/
def spreadRun : JitterRun :=
  { status := 0, ending := Ending.stop, nohz_exit_calls := 1,
    stats := { cmax := 3, cmin := 3, avg := 6, tests_done := 2 },
    reports := [{ tests_done := 1, jitter := 3, cmax := 3, cmin := 3, mean := 3 },
                { tests_done := 2, jitter := 3, cmax := 3, cmin := 3, mean := 3 }] }

/-- The run of `rt_thread` on core 2 with two loops and the timestamps
`spreadStamps 0`: the first wait succeeds, two workloads, jitter 3. -/
def spreadTrial : ThreadRun :=
  { td := { jitter := 3, cpu := 2, ret := 0 },
    waits := [{ usecs := 5000, forced := 0, ret := 0 }], workloads := 2 }

/-! ### A long core list -/

/-- A core list of 49 entries: the even cores 2, 4, ..., 98. -/
def evenCores : List CpuEntry :=
  [CpuEntry.single 2, CpuEntry.single 4, CpuEntry.single 6, CpuEntry.single 8,
   CpuEntry.single 10, CpuEntry.single 12, CpuEntry.single 14, CpuEntry.single 16,
   CpuEntry.single 18, CpuEntry.single 20, CpuEntry.single 22, CpuEntry.single 24,
   CpuEntry.single 26, CpuEntry.single 28, CpuEntry.single 30, CpuEntry.single 32,
   CpuEntry.single 34, CpuEntry.single 36, CpuEntry.single 38, CpuEntry.single 40,
   CpuEntry.single 42, CpuEntry.single 44, CpuEntry.single 46, CpuEntry.single 48,
   CpuEntry.single 50, CpuEntry.single 52, CpuEntry.single 54, CpuEntry.single 56,
   CpuEntry.single 58, CpuEntry.single 60, CpuEntry.single 62, CpuEntry.single 64,
   CpuEntry.single 66, CpuEntry.single 68, CpuEntry.single 70, CpuEntry.single 72,
   CpuEntry.single 74, CpuEntry.single 76, CpuEntry.single 78, CpuEntry.single 80,
   CpuEntry.single 82, CpuEntry.single 84, CpuEntry.single 86, CpuEntry.single 88,
   CpuEntry.single 90, CpuEntry.single 92, CpuEntry.single 94, CpuEntry.single 96,
   CpuEntry.single 98]

/-- The content of `nohz_full` for `evenCores`: `2,4,6,...,98` and a newline,
143 characters. -/
def evenCoresFile : List Char :=
  ['2', ',', '4', ',', '6', ',', '8', ',', '1', '0', ',', '1', '2', ',', '1', '4', ',', '1', '6',
   ',', '1', '8', ',', '2', '0', ',', '2', '2', ',', '2', '4', ',', '2', '6', ',', '2', '8', ',',
   '3', '0', ',', '3', '2', ',', '3', '4', ',', '3', '6', ',', '3', '8', ',', '4', '0', ',', '4',
   '2', ',', '4', '4', ',', '4', '6', ',', '4', '8', ',', '5', '0', ',', '5', '2', ',', '5', '4',
   ',', '5', '6', ',', '5', '8', ',', '6', '0', ',', '6', '2', ',', '6', '4', ',', '6', '6', ',',
   '6', '8', ',', '7', '0', ',', '7', '2', ',', '7', '4', ',', '7', '6', ',', '7', '8', ',', '8',
   '0', ',', '8', '2', ',', '8', '4', ',', '8', '6', ',', '8', '8', ',', '9', '0', ',', '9', '2',
   ',', '9', '4', ',', '9', '6', ',', '9', '8', '\n']

/-- The first 127 characters of `evenCoresFile`: `2,4,6,...,88`, the list of
the first 44 entries of `evenCores`. -/
def evenCoresCut : List Char :=
  ['2', ',', '4', ',', '6', ',', '8', ',', '1', '0', ',', '1', '2', ',', '1', '4', ',', '1', '6',
   ',', '1', '8', ',', '2', '0', ',', '2', '2', ',', '2', '4', ',', '2', '6', ',', '2', '8', ',',
   '3', '0', ',', '3', '2', ',', '3', '4', ',', '3', '6', ',', '3', '8', ',', '4', '0', ',', '4',
   '2', ',', '4', '4', ',', '4', '6', ',', '4', '8', ',', '5', '0', ',', '5', '2', ',', '5', '4',
   ',', '5', '6', ',', '5', '8', ',', '6', '0', ',', '6', '2', ',', '6', '4', ',', '6', '6', ',',
   '6', '8', ',', '7', '0', ',', '7', '2', ',', '7', '4', ',', '7', '6', ',', '7', '8', ',', '8',
   '0', ',', '8', '2', ',', '8', '4', ',', '8', '6', ',', '8', '8']

/-- A libnuma parser stand-in that knows one text: for `text` it gives the mask
`c`, every other text it rejects. -/
def parseOnly (text : List Char) (c : bitmask) (s : List Char) : Option bitmask :=
  if s = text then some c else none

/-- The mask of 128 cores with the even cores 2, 4, ..., 88 set. -/
def evenCutMask : bitmask :=
  { size := 128, bits := fun n => n % 2 = 0 && decide (2 ≤ n) && decide (n ≤ 88) }

/-- The mask of 8 cores with cores 2 and 3 set. -/
def twoThreeMask : bitmask :=
  { size := 8, bits := fun n => n = 2 || n = 3 }

/-- The mask of 8 cores with cores 0 to 3 set. -/
def zeroThreeMask : bitmask :=
  { size := 8, bits := fun n => decide (n ≤ 3) }

/-! # Theorems -/

/-! ### Properties of the loop of `nohz_wait` -/

theorem nohz_wait_loop_sound (usecs forced : Int) (k : Kernel) (t1 : Int) :
    ∀ (fuel i : Nat) (tr : List Event) (r : WaitResult),
      nohz_wait_loop usecs forced k t1 fuel i tr = some r →
      i < r.polls ∧ r.t2 = k.clock r.polls ∧
      (∀ j, i ≤ j → j + 1 < r.polls →
        k.tick j ≠ -1 ∧ k.tick j ≠ 1 ∧ k.clock (j + 1) - t1 < usecs) ∧
      ((r.ret = -2 ∧ k.tick (r.polls - 1) = -1) ∨
       (r.ret = 0 ∧ k.tick (r.polls - 1) = 1) ∨
       (r.ret = -1 ∧ k.tick (r.polls - 1) ≠ -1 ∧ k.tick (r.polls - 1) ≠ 1 ∧
          usecs ≤ k.clock r.polls - t1)) := by
  intro fuel
  induction fuel with
  | zero => intro i tr r h; simp [nohz_wait_loop] at h
  | succ fuel ih =>
    intro i tr r h
    simp only [nohz_wait_loop] at h
    by_cases h1 : k.tick i = -1
    · rw [if_pos h1, Option.some.injEq] at h
      subst h
      refine ⟨by simp, rfl, ?_, ?_⟩
      · intro j hij hj; simp at hj; omega
      · left; simpa using h1
    · rw [if_neg h1] at h
      by_cases h2 : k.tick i = 1
      · rw [if_pos h2, Option.some.injEq] at h
        subst h
        refine ⟨by simp, rfl, ?_, ?_⟩
        · intro j hij hj; simp at hj; omega
        · right; left; simpa using h2
      · rw [if_neg h2] at h
        by_cases h3 : k.clock (i + 1) - t1 < usecs
        · rw [if_pos h3] at h
          obtain ⟨hlt, ht2, hall, hret⟩ := ih (i + 1) _ r h
          refine ⟨by omega, ht2, ?_, hret⟩
          intro j hij hj
          by_cases hji : j = i
          · subst hji; exact ⟨h1, h2, h3⟩
          · exact hall j (by omega) hj
        · rw [if_neg h3, Option.some.injEq] at h
          subst h
          refine ⟨by simp, rfl, ?_, ?_⟩
          · intro j hij hj; simp at hj; omega
          · right; right
            refine ⟨rfl, ?_, ?_, ?_⟩
            · simpa using h1
            · simpa using h2
            · simpa using h3

theorem nohz_wait_loop_mono (usecs forced : Int) (k : Kernel) (t1 : Int) :
    ∀ (fuel i : Nat) (tr : List Event) (r : WaitResult),
      nohz_wait_loop usecs forced k t1 fuel i tr = some r →
      ∀ f, fuel ≤ f → nohz_wait_loop usecs forced k t1 f i tr = some r := by
  intro fuel
  induction fuel with
  | zero => intro i tr r h; simp [nohz_wait_loop] at h
  | succ fuel ih =>
    intro i tr r h f hf
    obtain ⟨g, rfl⟩ : ∃ g, f = g + 1 := ⟨f - 1, by omega⟩
    simp only [nohz_wait_loop] at h ⊢
    by_cases h1 : k.tick i = -1
    · rw [if_pos h1] at h ⊢; exact h
    · rw [if_neg h1] at h ⊢
      by_cases h2 : k.tick i = 1
      · rw [if_pos h2] at h ⊢; exact h
      · rw [if_neg h2] at h ⊢
        by_cases h3 : k.clock (i + 1) - t1 < usecs
        · rw [if_pos h3] at h ⊢
          exact ih _ _ r h g (by omega)
        · rw [if_neg h3] at h ⊢; exact h

theorem nohz_wait_loop_complete (usecs forced : Int) (k : Kernel) (t1 : Int) :
    ∀ (d i : Nat) (tr : List Event),
      (k.tick (i + d) = -1 ∨ k.tick (i + d) = 1 ∨ usecs ≤ k.clock (i + d + 1) - t1) →
      ∃ r, nohz_wait_loop usecs forced k t1 (d + 1) i tr = some r := by
  intro d
  induction d with
  | zero =>
    intro i tr h
    simp only [Nat.add_zero] at h
    simp only [nohz_wait_loop]
    by_cases h1 : k.tick i = -1
    · rw [if_pos h1]; exact ⟨_, rfl⟩
    · rw [if_neg h1]
      by_cases h2 : k.tick i = 1
      · rw [if_pos h2]; exact ⟨_, rfl⟩
      · rw [if_neg h2]
        have h3 : ¬ k.clock (i + 1) - t1 < usecs := by
          rcases h with h | h | h
          · exact absurd h h1
          · exact absurd h h2
          · omega
        rw [if_neg h3]; exact ⟨_, rfl⟩
  | succ d ih =>
    intro i tr h
    rw [nohz_wait_loop]
    simp only
    by_cases h1 : k.tick i = -1
    · rw [if_pos h1]; exact ⟨_, rfl⟩
    · rw [if_neg h1]
      by_cases h2 : k.tick i = 1
      · rw [if_pos h2]; exact ⟨_, rfl⟩
      · rw [if_neg h2]
        by_cases h3 : k.clock (i + 1) - t1 < usecs
        · rw [if_pos h3]
          apply ih (i + 1)
          have e : i + 1 + d = i + (d + 1) := by omega
          rw [e]; exact h
        · rw [if_neg h3]; exact ⟨_, rfl⟩

theorem nohz_wait_loop_trace (usecs forced : Int) (k : Kernel) (t1 : Int) :
    ∀ (fuel i : Nat) (r : WaitResult),
      nohz_wait_loop usecs forced k t1 fuel i (expectedTrace forced k i) = some r →
      r.trace = expectedTrace forced k r.polls := by
  intro fuel
  induction fuel with
  | zero => intro i r h; simp [nohz_wait_loop] at h
  | succ fuel ih =>
    intro i r h
    simp only [nohz_wait_loop] at h
    by_cases h1 : k.tick i = -1
    · rw [if_pos h1, Option.some.injEq] at h
      subst h
      simp [expectedTrace, iterEvents, h1]
    · rw [if_neg h1] at h
      by_cases h2 : k.tick i = 1
      · rw [if_pos h2, Option.some.injEq] at h
        subst h
        simp [expectedTrace, iterEvents, h2]
      · rw [if_neg h2] at h
        have e : (if forced ≠ 0 then
              expectedTrace forced k i ++ [Event.poll (k.tick i)] ++ [Event.toggle_affinity]
            else expectedTrace forced k i ++ [Event.poll (k.tick i)]) =
            expectedTrace forced k (i + 1) := by
          by_cases hf : forced = 0 <;> simp [expectedTrace, iterEvents, h1, h2, hf]
        rw [e] at h
        by_cases h3 : k.clock (i + 1) - t1 < usecs
        · rw [if_pos h3] at h
          exact ih (i + 1) r h
        · rw [if_neg h3, Option.some.injEq] at h
          subst h
          rfl

theorem forcings_expectedTrace (forced : Int) (k : Kernel) (n : Nat) :
    forcings (expectedTrace forced k n) = if forced = 0 then 0 else notStoppedPolls k n := by
  induction n with
  | zero => simp [forcings, expectedTrace, notStoppedPolls]
  | succ n ih =>
    simp only [forcings] at ih
    simp only [forcings, expectedTrace, List.count_append, ih, notStoppedPolls,
      List.range_succ, List.filter_append, List.length_append, iterEvents]
    by_cases hf : forced = 0
    · simp [hf]
    · by_cases h : k.tick n ≠ -1 ∧ k.tick n ≠ 1
      · simp [hf, h]
      · simp [hf, h]

/-! ### C1 -/

/-- C1: every finished call of `nohz_wait` returns 0, -1 or -2; no poll before
the last one reported -1 or 1; it returns -2 exactly when the last poll reported
-1 and 0 exactly when the last poll reported 1; and when it returns -1 the last
poll reported neither and the last reading `t2` is at least `usecs` past the
reading `t1` taken at entry.  A call finishes, with one and the same result for
every sufficient fuel, as soon as some iteration has a poll reporting -1 or 1 or
a reading at least `usecs` past `t1`; it then returns at the first such
iteration, with the value that iteration decides. -/
theorem nohz_wait_outcome (usecs forced : Int) (k : Kernel) :
    (∀ fuel r, nohz_wait usecs forced k fuel = some r →
      (r.ret = 0 ∨ r.ret = -1 ∨ r.ret = -2) ∧ 1 ≤ r.polls ∧
      (∀ j, j + 1 < r.polls → k.tick j ≠ -1 ∧ k.tick j ≠ 1) ∧
      (r.ret = -2 ↔ k.tick (r.polls - 1) = -1) ∧
      (r.ret = 0 ↔ k.tick (r.polls - 1) = 1) ∧
      (r.ret = -1 → k.tick (r.polls - 1) ≠ -1 ∧ k.tick (r.polls - 1) ≠ 1 ∧
        r.t2 = k.clock r.polls ∧ usecs ≤ r.t2 - k.clock 0)) ∧
    ((∃ n, k.tick n = -1 ∨ k.tick n = 1 ∨ usecs ≤ k.clock (n + 1) - k.clock 0) →
      ∃ fuel r, ∀ f, fuel ≤ f → nohz_wait usecs forced k f = some r) ∧
    (∀ n, (∀ j, j < n → k.tick j ≠ -1 ∧ k.tick j ≠ 1 ∧ k.clock (j + 1) - k.clock 0 < usecs) →
      (k.tick n = -1 ∨ k.tick n = 1 ∨ usecs ≤ k.clock (n + 1) - k.clock 0) →
      ∃ r, (∀ f, n + 1 ≤ f → nohz_wait usecs forced k f = some r) ∧ r.polls = n + 1 ∧
        r.ret = (if k.tick n = -1 then -2 else if k.tick n = 1 then 0 else -1)) := by
  refine ⟨?_, ?_, ?_⟩
  · intro fuel r h
    obtain ⟨hlt, ht2, hall, hret⟩ := nohz_wait_loop_sound usecs forced k _ fuel 0 [] r h
    refine ⟨?_, by omega, fun j hj => ⟨(hall j (by omega) hj).1, (hall j (by omega) hj).2.1⟩,
      ?_, ?_, ?_⟩
    · rcases hret with h | h | h
      · exact Or.inr (Or.inr h.1)
      · exact Or.inl h.1
      · exact Or.inr (Or.inl h.1)
    · rcases hret with h | h | h
      · exact ⟨fun _ => h.2, fun _ => h.1⟩
      · exact ⟨fun e => by rw [h.1] at e; omega, fun e => by rw [h.2] at e; omega⟩
      · exact ⟨fun e => by rw [h.1] at e; omega, fun e => absurd e h.2.1⟩
    · rcases hret with h | h | h
      · exact ⟨fun e => by rw [h.1] at e; omega, fun e => by rw [h.2] at e; omega⟩
      · exact ⟨fun _ => h.2, fun _ => h.1⟩
      · exact ⟨fun e => by rw [h.1] at e; omega, fun e => absurd e h.2.2.1⟩
    · intro e
      rcases hret with h | h | h
      · rw [h.1] at e; omega
      · rw [h.1] at e; omega
      · exact ⟨h.2.1, h.2.2.1, ht2, by rw [ht2]; exact h.2.2.2⟩
  · rintro ⟨n, hn⟩
    obtain ⟨r, hr⟩ := nohz_wait_loop_complete usecs forced k (k.clock 0) n 0 []
      (by simpa using hn)
    exact ⟨n + 1, r, fun f hf => nohz_wait_loop_mono usecs forced k _ _ 0 [] r hr f hf⟩
  · intro n hbefore hn
    obtain ⟨r, hr⟩ := nohz_wait_loop_complete usecs forced k (k.clock 0) n 0 []
      (by simpa using hn)
    obtain ⟨hlt, _, hall, hret⟩ := nohz_wait_loop_sound usecs forced k _ _ 0 [] r hr
    have hpolls : r.polls = n + 1 := by
      by_contra hne
      rcases Nat.lt_or_gt_of_ne hne with hlow | hhigh
      · have hb := hbefore (r.polls - 1) (by omega)
        have e : r.polls - 1 + 1 = r.polls := by omega
        rw [e] at hb
        rcases hret with h | h | h
        · exact hb.1 h.2
        · exact hb.2.1 h.2
        · have := h.2.2.2; omega
      · have ha := hall n (by omega) (by omega)
        rcases hn with h | h | h
        · exact ha.1 h
        · exact ha.2.1 h
        · omega
    refine ⟨r, fun f hf => nohz_wait_loop_mono usecs forced k _ _ 0 [] r hr f hf, hpolls, ?_⟩
    have e : r.polls - 1 = n := by omega
    rw [e] at hret
    rcases hret with h | h | h
    · rw [h.1, if_pos h.2]
    · have hne : k.tick n ≠ -1 := by rw [h.2]; decide
      rw [h.1, if_neg hne, if_pos h.2]
    · rw [h.1, if_neg h.2.1, if_neg h.2.2.1]

/-- C1, at a concrete run: polls `0, 0, 1` on a clock that stays below the
timeout, with forcing. -/
theorem nohz_wait_outcome_witness :
    nohz_wait 100 1 thirdPollKernel 5 = some thirdPollResult ∧
    (thirdPollResult.ret = 0 ∨ thirdPollResult.ret = -1 ∨ thirdPollResult.ret = -2) ∧
    (thirdPollResult.ret = 0 ↔ thirdPollKernel.tick (thirdPollResult.polls - 1) = 1) :=
  have h : nohz_wait 100 1 thirdPollKernel 5 = some thirdPollResult := by decide
  ⟨h, ((nohz_wait_outcome 100 1 thirdPollKernel).1 5 thirdPollResult h).1,
    ((nohz_wait_outcome 100 1 thirdPollKernel).1 5 thirdPollResult h).2.2.2.2.1⟩

/-! ### C2 -/

/-- C2 fails as stated: on `steadyKernel` every iteration costs 10 microseconds,
the clock never goes back and no poll reports the tick stopped or unavailable;
`nohz_wait(15, 0)` returns -1 after three polls, 30 microseconds after the
reading taken at entry, which is not below 15 plus the cost of one iteration. -/
theorem nohz_wait_overshoot_counterexample :
    nohz_wait 15 0 steadyKernel 3 =
      some { ret := -1, polls := 3, t2 := 20,
             trace := [Event.poll 0, Event.poll 0, Event.poll 0] } ∧
    (∀ n, steadyKernel.clock n ≤ steadyKernel.clock (n + 1)) ∧
    (∀ n, steadyKernel.tick n ≠ -1 ∧ steadyKernel.tick n ≠ 1) ∧
    (∀ i, iterCost steadyKernel i = 10) ∧
    elapsedAtReturn steadyKernel
      { ret := -1, polls := 3, t2 := 20,
        trace := [Event.poll 0, Event.poll 0, Event.poll 0] } = 30 ∧
    ¬ ((30 : Int) < 15 + 10) := by
  refine ⟨by decide, ?_, ?_, ?_, by decide, by decide⟩
  · intro n
    simp only [steadyKernel]
    omega
  · intro n
    simp [steadyKernel]
  · intro i
    simp only [iterCost, steadyKernel]
    omega

/-- C2, amended: with `forced = 0`, on a clock that never goes back and
eventually is `usecs` past the reading taken at entry, and with no poll
reporting the tick stopped or unavailable, `nohz_wait` returns -1 without any
forcing step; the reading `t2` it decides on and the time of the return are both
at least `usecs` past the reading at entry; and when more than one poll was
made, the reading before `t2` was less than `usecs` past entry, so `t2` is less
than `usecs` plus the cost of the iteration before the last past entry, and the
return less than `usecs` plus the cost of the last two iterations. -/
theorem nohz_wait_unforced_timeout (usecs : Int) (k : Kernel)
    (hmono : ∀ n, k.clock n ≤ k.clock (n + 1))
    (hrun : ∀ n, k.tick n ≠ -1 ∧ k.tick n ≠ 1)
    (hprog : ∃ n, usecs ≤ k.clock (n + 1) - k.clock 0) :
    ∃ fuel r, (∀ f, fuel ≤ f → nohz_wait usecs 0 k f = some r) ∧
      r.ret = -1 ∧ 1 ≤ r.polls ∧ forcings r.trace = 0 ∧
      r.t2 = k.clock r.polls ∧
      usecs ≤ r.t2 - k.clock 0 ∧
      usecs ≤ elapsedAtReturn k r ∧
      (2 ≤ r.polls →
        k.clock (r.polls - 1) - k.clock 0 < usecs ∧
        r.t2 - k.clock 0 < usecs + iterCost k (r.polls - 2) ∧
        elapsedAtReturn k r < usecs + iterCost k (r.polls - 2) + iterCost k (r.polls - 1)) := by
  obtain ⟨n, hn⟩ := hprog
  obtain ⟨r, hr⟩ := nohz_wait_loop_complete usecs 0 k (k.clock 0) n 0 []
    (by simpa using Or.inr (Or.inr hn))
  obtain ⟨hlt, ht2, hall, hret⟩ := nohz_wait_loop_sound usecs 0 k _ _ 0 [] r hr
  have htr := nohz_wait_loop_trace usecs 0 k (k.clock 0) _ 0 r hr
  have hneg : r.ret = -1 ∧ usecs ≤ k.clock r.polls - k.clock 0 := by
    rcases hret with h | h | h
    · exact absurd h.2 (hrun _).1
    · exact absurd h.2 (hrun _).2
    · exact ⟨h.1, h.2.2.2⟩
  refine ⟨n + 1, r, fun f hf => nohz_wait_loop_mono usecs 0 k _ _ 0 [] r hr f hf,
    hneg.1, by omega, ?_, ht2, by rw [ht2]; exact hneg.2, ?_, ?_⟩
  · rw [htr, forcings_expectedTrace]; simp
  · have := hmono r.polls
    simp only [elapsedAtReturn]
    omega
  · intro h2
    have hprev := (hall (r.polls - 2) (by omega) (by omega)).2.2
    have e1 : r.polls - 2 + 1 = r.polls - 1 := by omega
    have e2 : r.polls - 2 + 2 = r.polls := by omega
    have e3 : r.polls - 1 + 2 = r.polls + 1 := by omega
    have e4 : r.polls - 1 + 1 = r.polls := by omega
    rw [e1] at hprev
    refine ⟨hprev, ?_, ?_⟩
    · simp only [iterCost, e1, e2, ht2]; omega
    · simp only [iterCost, elapsedAtReturn, e1, e2, e3, e4]; omega

/-- C2 amended, at `steadyKernel` with a timeout of 15 microseconds. -/
theorem nohz_wait_unforced_timeout_witness :
    ∃ fuel r, (∀ f, fuel ≤ f → nohz_wait 15 0 steadyKernel f = some r) ∧
      r.ret = -1 ∧ 1 ≤ r.polls ∧ forcings r.trace = 0 ∧
      r.t2 = steadyKernel.clock r.polls ∧
      15 ≤ r.t2 - steadyKernel.clock 0 ∧
      15 ≤ elapsedAtReturn steadyKernel r ∧
      (2 ≤ r.polls →
        steadyKernel.clock (r.polls - 1) - steadyKernel.clock 0 < 15 ∧
        r.t2 - steadyKernel.clock 0 < 15 + iterCost steadyKernel (r.polls - 2) ∧
        elapsedAtReturn steadyKernel r <
          15 + iterCost steadyKernel (r.polls - 2) + iterCost steadyKernel (r.polls - 1)) :=
  nohz_wait_unforced_timeout 15 steadyKernel
    (fun n => by simp only [steadyKernel]; omega)
    (fun n => by simp [steadyKernel])
    ⟨2, by decide⟩

/-! ### C3 -/

/-- C3: the events of a finished call of `nohz_wait` are, iteration by
iteration, the poll followed by one forcing step exactly when `forced` is
non-zero and that poll reported the tick not stopped; so with `forced = 0` there
is no forcing step, and with `forced` non-zero there are as many as polls that
reported the tick not stopped.  When the first poll reports the tick stopped,
the call returns 0 after one poll and no forcing step, whatever `usecs` and
`forced` are. -/
theorem nohz_wait_forcing_steps (usecs forced : Int) (k : Kernel) :
    (∀ fuel r, nohz_wait usecs forced k fuel = some r →
      r.trace = expectedTrace forced k r.polls ∧
      (forced = 0 → forcings r.trace = 0) ∧
      (forced ≠ 0 → forcings r.trace = notStoppedPolls k r.polls)) ∧
    (k.tick 0 = 1 → ∀ fuel,
      nohz_wait usecs forced k (fuel + 1) =
        some { ret := 0, polls := 1, t2 := k.clock 1, trace := [Event.poll 1] } ∧
      forcings [Event.poll 1] = 0) := by
  constructor
  · intro fuel r h
    have htr := nohz_wait_loop_trace usecs forced k (k.clock 0) fuel 0 r h
    refine ⟨htr, ?_, ?_⟩
    · intro hf; rw [htr, forcings_expectedTrace, if_pos hf]
    · intro hf; rw [htr, forcings_expectedTrace, if_neg hf]
  · intro h fuel
    refine ⟨?_, by decide⟩
    simp [nohz_wait, nohz_wait_loop, h]

/-- C3, at the run of `thirdPollKernel`: two polls report the tick not stopped
and two forcing steps follow them. -/
theorem nohz_wait_forcing_steps_witness :
    nohz_wait 100 1 thirdPollKernel 5 = some thirdPollResult ∧
    thirdPollResult.trace = expectedTrace 1 thirdPollKernel thirdPollResult.polls ∧
    forcings thirdPollResult.trace = 2 :=
  have h : nohz_wait 100 1 thirdPollKernel 5 = some thirdPollResult := by decide
  ⟨h, ((nohz_wait_forcing_steps 100 1 thirdPollKernel).1 5 thirdPollResult h).1, by decide⟩

/-! ### `is_nohz_cpu` and the mask it is given -/

/-- For a core number representable as an `int`, `is_nohz_cpu` returns 1
exactly when `get_nohz_full_cpu_mask` yields a mask (the list is available),
the core is non-zero and the core is in the set of that mask; it returns 0
otherwise, in particular for core 0, when the file cannot be opened, when the
file is empty or starts with an empty line, when libnuma cannot parse the line,
and for a core outside the set; a negative `cpu` gives 0 as well when the mask
has at most `2 ^ 31` bits. -/
theorem is_nohz_cpu_iff (parse : List Char → Option bitmask) (file : Option (List Char))
    (core : Nat) (hcore : core < 2 ^ 31) :
    (is_nohz_cpu parse file core = 1 ↔
      ∃ c, get_nohz_full_cpu_mask parse file = some c ∧ core ≠ 0 ∧ c.contains core) ∧
    (is_nohz_cpu parse file core ≠ 1 → is_nohz_cpu parse file core = 0) ∧
    is_nohz_cpu parse file 0 = 0 ∧
    is_nohz_cpu parse none core = 0 ∧
    is_nohz_cpu parse (some []) core = 0 ∧
    (∀ rest, is_nohz_cpu parse (some ('\n' :: rest)) core = 0) ∧
    (∀ content str, file = some content → fgets 128 content = some str →
      parse (strtok_newline str) = none → is_nohz_cpu parse file core = 0) ∧
    (∀ c, get_nohz_full_cpu_mask parse file = some c → ¬ c.contains core →
      is_nohz_cpu parse file core = 0) ∧
    (∀ cpu : Int, -(2 ^ 31) ≤ cpu → cpu < 0 →
      (∀ c, get_nohz_full_cpu_mask parse file = some c → c.size ≤ 2 ^ 31) →
      is_nohz_cpu parse file cpu = 0) := by
  have hu : toUnsigned (core : Int) = core := by
    unfold toUnsigned
    have h1 : ((core : Int) % 2 ^ 32) = core := by
      apply Int.emod_eq_of_lt <;> omega
    rw [h1]; simp
  refine ⟨?_, ?_, ?_, ?_, ?_, ?_, ?_, ?_, ?_⟩
  · unfold is_nohz_cpu
    cases hm : get_nohz_full_cpu_mask parse file with
    | none => simp
    | some c =>
      simp only [hu, numa_bitmask_isbitset, bitmask.contains, Option.some.injEq,
        exists_eq_left']
      by_cases h0 : core = 0
      · simp [h0]
      · by_cases hb : core < c.size ∧ c.bits core = true
        · simp [h0, hb]
        · simp [h0, hb]
  · unfold is_nohz_cpu
    cases get_nohz_full_cpu_mask parse file with
    | none => simp
    | some c => dsimp only; split_ifs <;> simp
  · unfold is_nohz_cpu
    cases get_nohz_full_cpu_mask parse file <;> simp
  · simp [is_nohz_cpu, get_nohz_full_cpu_mask]
  · simp [is_nohz_cpu, get_nohz_full_cpu_mask, fgets]
  · intro rest
    simp [is_nohz_cpu, get_nohz_full_cpu_mask, fgets, takeLine]
  · intro content str hfile hget hparse
    subst hfile
    have hm : get_nohz_full_cpu_mask parse (some content) = none := by
      simp only [get_nohz_full_cpu_mask, hget, hparse]
      split_ifs <;> rfl
    simp [is_nohz_cpu, hm]
  · intro c hm hnot
    simp only [is_nohz_cpu, hm, hu, numa_bitmask_isbitset]
    have hb : ¬ (core < c.size ∧ c.bits core = true) := hnot
    simp [hb]
  · intro cpu hlo hneg hsize
    unfold is_nohz_cpu
    cases hm : get_nohz_full_cpu_mask parse file with
    | none => rfl
    | some c =>
      have hsz := hsize c hm
      have hun : ¬ toUnsigned cpu < c.size := by
        unfold toUnsigned
        have h1 : cpu % 2 ^ 32 = cpu + 2 ^ 32 := by
          rw [← Int.add_emod_self]
          apply Int.emod_eq_of_lt <;> omega
        rw [h1]
        omega
      simp [numa_bitmask_isbitset, hun]

/-- At the list `2-3`, core 2 is valid and core 4 is not. -/
theorem is_nohz_cpu_iff_witness :
    is_nohz_cpu parseTwoThree (some ['2', '-', '3', '\n']) 2 = 1 ∧
    is_nohz_cpu parseTwoThree (some ['2', '-', '3', '\n']) 4 = 0 ∧
    (is_nohz_cpu parseTwoThree (some ['2', '-', '3', '\n']) ((2 : Nat) : Int) = 1 ↔
      ∃ c, get_nohz_full_cpu_mask parseTwoThree (some ['2', '-', '3', '\n']) = some c ∧
        2 ≠ 0 ∧ c.contains 2) :=
  ⟨by decide, by decide,
   (is_nohz_cpu_iff parseTwoThree (some ['2', '-', '3', '\n']) 2 (by decide)).1⟩

/-! ### The first number of the core list -/

theorem digitChar_spec (d : Nat) (h : d < 10) :
    isdigit (digitChar d) = true ∧ (digitChar d).toNat - 48 = d ∧ digitChar d ≠ '\n' := by
  interval_cases d <;> decide

theorem digitsValue_map_digitChar (rest : List Char) :
    ∀ (ds : List Nat) (acc : Nat), (∀ d ∈ ds, d < 10) →
      digitsValue (ds.map digitChar ++ rest) acc =
        digitsValue rest (ds.foldl (fun a d => a * 10 + d) acc) := by
  intro ds
  induction ds with
  | nil => intro acc _; rfl
  | cons d ds ih =>
    intro acc h
    obtain ⟨h1, h2, _⟩ := digitChar_spec d (h d (List.mem_cons_self _ _))
    simp only [List.map_cons, List.cons_append, digitsValue, h1, if_true, h2, List.foldl_cons]
    exact ih _ (fun x hx => h x (List.mem_cons_of_mem _ hx))

theorem digitsValue_stop (rest : List Char)
    (hrest : ∀ c cs, rest = c :: cs → isdigit c = false) (acc : Nat) :
    digitsValue rest acc = acc := by
  cases rest with
  | nil => rfl
  | cons c cs => simp [digitsValue, hrest c cs rfl]

theorem foldl_digits_reverse (n : Nat) :
    (Nat.digits 10 n).reverse.foldl (fun a d => a * 10 + d) 0 = n := by
  rw [List.foldl_reverse]
  have h := Nat.ofDigits_eq_foldr (10 : Nat) (Nat.digits 10 n)
  rw [Nat.ofDigits_digits] at h
  have e : (fun (x y : Nat) => y * 10 + x) = (fun (x y : Nat) => ((x : Nat) : Nat) + 10 * y) := by
    funext x y
    show y * 10 + x = x + 10 * y
    omega
  rw [e]
  exact h.symm

theorem digitsValue_renderNat (n : Nat) (rest : List Char)
    (hrest : ∀ c cs, rest = c :: cs → isdigit c = false) :
    digitsValue (renderNat n ++ rest) 0 = n := by
  unfold renderNat
  by_cases h0 : n = 0
  · subst h0
    simp only [if_true, List.cons_append, List.nil_append, digitsValue]
    rw [if_pos (by decide)]
    exact digitsValue_stop rest hrest _
  · rw [if_neg h0, digitsValue_map_digitChar rest _ _
      (fun d hd => Nat.digits_lt_base (by decide) (List.mem_reverse.mp hd)),
      digitsValue_stop rest hrest, foldl_digits_reverse]

theorem renderNat_chars (n : Nat) :
    ∀ c ∈ renderNat n, isdigit c = true ∧ c ≠ '\n' := by
  intro c hc
  unfold renderNat at hc
  by_cases h0 : n = 0
  · rw [if_pos h0] at hc
    simp only [List.mem_singleton] at hc
    subst hc
    decide
  · rw [if_neg h0] at hc
    obtain ⟨d, hd, rfl⟩ := List.mem_map.mp hc
    have hlt : d < 10 := Nat.digits_lt_base (by decide) (List.mem_reverse.mp hd)
    exact ⟨(digitChar_spec d hlt).1, (digitChar_spec d hlt).2.2⟩

theorem renderNat_ne_nil (n : Nat) : renderNat n ≠ [] := by
  unfold renderNat
  by_cases h0 : n = 0
  · simp [h0]
  · rw [if_neg h0]
    simp [Nat.digits_ne_nil_iff_ne_zero, h0]

theorem renderNat_length (n : Nat) (h : n < 2 ^ 31) : (renderNat n).length ≤ 10 := by
  unfold renderNat
  by_cases h0 : n = 0
  · simp [h0]
  · rw [if_neg h0]
    simp only [List.length_map, List.length_reverse]
    have h1 := Nat.base_pow_length_digits_le 10 n (by decide) h0
    have h2 : 10 ^ (Nat.digits 10 n).length < 10 ^ 11 := by
      calc 10 ^ (Nat.digits 10 n).length ≤ 10 * n := h1
        _ < 10 ^ 11 := by norm_num at h ⊢; omega
    have h3 := (Nat.pow_lt_pow_iff_right (by decide : 1 < 10)).mp h2
    omega

theorem takeLine_append (rest : List Char) :
    ∀ (pre : List Char) (n : Nat), (∀ c ∈ pre, c ≠ '\n') → pre.length ≤ n →
      takeLine n (pre ++ rest) = pre ++ takeLine (n - pre.length) rest := by
  intro pre
  induction pre with
  | nil => intro n _ _; simp
  | cons c cs ih =>
    intro n h hn
    obtain ⟨m, rfl⟩ : ∃ m, n = m + 1 := ⟨n - 1, by simp at hn; omega⟩
    have hc : c ≠ '\n' := h c (List.mem_cons_self _ _)
    simp only [List.cons_append, takeLine, if_neg hc, List.length_cons, Nat.add_sub_add_right]
    show c :: takeLine m (cs ++ rest) = _
    rw [ih m (fun x hx => h x (List.mem_cons_of_mem _ hx)) (by simp at hn; omega)]

theorem wrapInt_of_range (x : Int) (h0 : -(2 ^ 31) ≤ x) (h1 : x < 2 ^ 31) : wrapInt x = x := by
  unfold wrapInt
  rw [Int.emod_eq_of_lt (by omega) (by omega)]
  omega

theorem atoi_digit_head (c : Char) (cs : List Char) (h : isdigit c = true)
    (hb : digitsValue (c :: cs) 0 < 2 ^ 31) :
    atoi (c :: cs) = (digitsValue (c :: cs) 0 : Int) := by
  have hs : isspace c = false := by
    by_contra hsp
    simp only [Bool.not_eq_false] at hsp
    simp only [isspace, Bool.or_eq_true, decide_eq_true_eq] at hsp
    rcases hsp with ((((h1 | h1) | h1) | h1) | h1) | h1 <;> subst h1 <;> revert h <;> decide
  have hm : c ≠ '-' := by rintro rfl; revert h; decide
  have hp : c ≠ '+' := by rintro rfl; revert h; decide
  have hv : (match (c :: cs).dropWhile isspace with
      | '-' :: cs => -(digitsValue cs 0 : Int)
      | '+' :: cs => (digitsValue cs 0 : Int)
      | cs => (digitsValue cs 0 : Int)) = (digitsValue (c :: cs) 0 : Int) := by
    simp only [List.dropWhile, hs]
    split
    · rename_i heq; simp only [List.cons.injEq] at heq; exact absurd heq.1 hm
    · rename_i heq; simp only [List.cons.injEq] at heq; exact absurd heq.1 hp
    · rfl
  have hb2 : (digitsValue (c :: cs) 0 : Int) < 2 ^ 31 := by exact_mod_cast hb
  have h0 : (0 : Int) ≤ (digitsValue (c :: cs) 0 : Int) := Int.ofNat_nonneg _
  unfold atoi strtol
  simp only [hv]
  rw [if_neg (by omega), if_neg (by omega)]
  exact wrapInt_of_range _ (by omega) hb2

theorem atoi_renderNat (n : Nat) (hn : n < 2 ^ 31) (c : Char) (rest : List Char)
    (hc : isdigit c = false) :
    atoi (renderNat n ++ c :: rest) = (n : Int) := by
  obtain ⟨d, ds, hd⟩ : ∃ d ds, renderNat n = d :: ds := by
    cases h : renderNat n with
    | nil => exact absurd h (renderNat_ne_nil n)
    | cons d ds => exact ⟨d, ds, rfl⟩
  have hdig : isdigit d = true := (renderNat_chars n d (by rw [hd]; simp)).1
  have h1 : renderNat n ++ c :: rest = d :: (ds ++ c :: rest) := by rw [hd]; rfl
  have hv : digitsValue (renderNat n ++ c :: rest) 0 = n :=
    digitsValue_renderNat n (c :: rest) (fun x xs hx => by
      simp only [List.cons.injEq] at hx; rw [← hx.1]; exact hc)
  rw [h1] at hv ⊢
  rw [atoi_digit_head d _ hdig (by rw [hv]; exact hn), hv]

theorem renderCpuList_head (e : CpuEntry) (es : List CpuEntry) :
    ∃ c rest, isdigit c = false ∧
      renderCpuList (e :: es) ++ ['\n'] = renderNat e.first ++ c :: rest := by
  cases e with
  | single n =>
    cases es with
    | nil => exact ⟨'\n', [], by decide, by simp [renderCpuList, CpuEntry.render, CpuEntry.first]⟩
    | cons e2 es =>
      exact ⟨',', renderCpuList (e2 :: es) ++ ['\n'], by decide,
        by simp [renderCpuList, CpuEntry.render, CpuEntry.first]⟩
  | range lo hi =>
    cases es with
    | nil =>
      exact ⟨'-', renderNat hi ++ ['\n'], by decide,
        by simp [renderCpuList, CpuEntry.render, CpuEntry.first]⟩
    | cons e2 es =>
      exact ⟨'-', renderNat hi ++ ',' :: (renderCpuList (e2 :: es) ++ ['\n']), by decide,
        by simp [renderCpuList, CpuEntry.render, CpuEntry.first]⟩

theorem get_nohz_full_cpu_of_number (n : Nat) (hn : n < 2 ^ 31) (c : Char) (rest : List Char)
    (hc : isdigit c = false) :
    get_nohz_full_cpu (some (renderNat n ++ c :: rest)) = if n = 0 then -1 else (n : Int) := by
  have hne : renderNat n ++ c :: rest ≠ [] := by simp
  have hlen := renderNat_length n hn
  have htake : takeLine 127 (renderNat n ++ c :: rest) =
      renderNat n ++ takeLine (127 - (renderNat n).length) (c :: rest) :=
    takeLine_append _ _ _ (fun x hx => (renderNat_chars n x hx).2) (by omega)
  obtain ⟨m, hm⟩ : ∃ m, 127 - (renderNat n).length = m + 1 :=
    ⟨126 - (renderNat n).length, by omega⟩
  obtain ⟨rest2, hrest2⟩ : ∃ rest2, takeLine (m + 1) (c :: rest) = c :: rest2 := by
    by_cases hnl : c = '\n'
    · exact ⟨[], by simp [takeLine, hnl]⟩
    · exact ⟨takeLine m rest, by simp [takeLine, hnl]⟩
  obtain ⟨d, ds, hd⟩ : ∃ d ds, renderNat n = d :: ds := by
    cases h : renderNat n with
    | nil => exact absurd h (renderNat_ne_nil n)
    | cons d ds => exact ⟨d, ds, rfl⟩
  have hdig : isdigit d = true := (renderNat_chars n d (by rw [hd]; simp)).1
  have hval : atoi (renderNat n ++ c :: rest2) = (n : Int) :=
    atoi_renderNat n hn c rest2 hc
  simp only [get_nohz_full_cpu, fgets, if_neg hne, Nat.add_one_sub_one, htake, hm, hrest2, hval]
  by_cases h0 : n = 0
  · simp [h0]
  · have : (n : Int) ≠ 0 := by exact_mod_cast h0
    simp [h0, this]

theorem ascending_first_le (e : CpuEntry) (es : List CpuEntry) (h : Ascending (e :: es)) :
    ∀ e2 ∈ e :: es, ∀ m, e2.lists m → e.first ≤ m := by
  intro e2 he2 m hm
  obtain ⟨hne, hpair⟩ := h
  rw [List.pairwise_cons] at hpair
  rcases List.mem_cons.mp he2 with rfl | hmem
  · exact hm.1
  · have h1 := hpair.1 e2 hmem
    have h2 := hne e (List.mem_cons_self _ _)
    have h3 := hm.1
    omega

/-- What `get_nohz_full_cpu` computes: for a core list in ascending order whose
first number fits an `int`, that first number is the lowest-numbered core of the
list, and the function returns it when it is not 0 and -1 when it is 0; it
returns -1 as well when the file cannot be opened, when it is empty, and when
the list has no entry. -/
theorem get_nohz_full_cpu_first (e : CpuEntry) (es : List CpuEntry)
    (hasc : Ascending (e :: es)) (hint : e.first < 2 ^ 31) :
    e.lists e.first ∧
    (∀ e2 ∈ e :: es, ∀ m, e2.lists m → e.first ≤ m) ∧
    get_nohz_full_cpu (some (renderCpuList (e :: es) ++ ['\n'])) =
      (if e.first = 0 then -1 else (e.first : Int)) ∧
    get_nohz_full_cpu none = -1 ∧
    get_nohz_full_cpu (some []) = -1 ∧
    get_nohz_full_cpu (some (renderCpuList [] ++ ['\n'])) = -1 := by
  refine ⟨⟨le_refl _, hasc.1 e (List.mem_cons_self _ _)⟩, ascending_first_le e es hasc, ?_,
    by decide, by decide, by decide⟩
  obtain ⟨c, rest, hc, hrender⟩ := renderCpuList_head e es
  rw [hrender]
  exact get_nohz_full_cpu_of_number e.first hint c rest hc

/-- At the list `2-5,7` the function returns 2. -/
theorem get_nohz_full_cpu_first_witness :
    renderCpuList [CpuEntry.range 2 5, CpuEntry.single 7] ++ ['\n'] =
      ['2', '-', '5', ',', '7', '\n'] ∧
    get_nohz_full_cpu (some ['2', '-', '5', ',', '7', '\n']) = 2 ∧
    get_nohz_full_cpu (some (renderCpuList [CpuEntry.range 2 5, CpuEntry.single 7] ++ ['\n'])) =
      (if (CpuEntry.range 2 5).first = 0 then -1 else ((CpuEntry.range 2 5).first : Int)) :=
  ⟨by simp [renderCpuList, CpuEntry.render, renderNat, digitChar], by decide,
   (get_nohz_full_cpu_first (CpuEntry.range 2 5) [CpuEntry.single 7]
      ⟨by simp [CpuEntry.first, CpuEntry.last], by simp [CpuEntry.first, CpuEntry.last]⟩
      (by simp [CpuEntry.first])).2.2.1⟩

/-! ### The two-phase wait -/

theorem nohz_wait_ret_range (usecs forced : Int) (k : Kernel) (fuel : Nat) (r : WaitResult)
    (h : nohz_wait usecs forced k fuel = some r) : r.ret = 0 ∨ r.ret = -1 ∨ r.ret = -2 := by
  obtain ⟨_, _, _, hret⟩ := nohz_wait_loop_sound usecs forced k _ fuel 0 [] r h
  rcases hret with h | h | h
  · exact Or.inr (Or.inr h.1)
  · exact Or.inl h.1
  · exact Or.inr (Or.inl h.1)

theorem nohz_wait_returns (usecs forced : Int) (k : Kernel)
    (h : ∃ n, k.tick n = -1 ∨ k.tick n = 1 ∨ usecs ≤ k.clock (n + 1) - k.clock 0) :
    ∃ fuel r, ∀ f, fuel ≤ f → nohz_wait usecs forced k f = some r := by
  obtain ⟨n, hn⟩ := h
  obtain ⟨r, hr⟩ := nohz_wait_loop_complete usecs forced k (k.clock 0) n 0 []
    (by simpa using hn)
  exact ⟨n + 1, r, fun f hf => nohz_wait_loop_mono usecs forced k _ _ 0 [] r hr f hf⟩

theorem nohz_wait_returns_after (usecs forced : Int) (k : Kernel) (hlive : k.Live) (s p : Nat) :
    ∃ fuel r, ∀ f, fuel ≤ f → nohz_wait usecs forced (k.after s p) f = some r := by
  apply nohz_wait_returns
  obtain ⟨n, hn⟩ := hlive s p usecs
  exact ⟨n, by simpa [Kernel.after] using hn⟩

theorem nohz_wait_returns_live (usecs forced : Int) (k : Kernel) (hlive : k.Live) :
    ∃ fuel r, ∀ f, fuel ≤ f → nohz_wait usecs forced k f = some r := by
  apply nohz_wait_returns
  obtain ⟨n, hn⟩ := hlive 0 0 usecs
  exact ⟨n, by simpa using hn⟩

theorem wait_then_force_calls (k : Kernel) (fuel : Nat) (ret : Int) (waits : List WaitCall)
    (h : wait_then_force k fuel = some (ret, waits)) :
    (ret = 0 ∨ ret = -1 ∨ ret = -2) ∧
    ((0 ≤ ret ∧ waits = [{ usecs := 5000, forced := 0, ret := ret }]) ∨
     (∃ r1, r1 < 0 ∧ waits = [{ usecs := 5000, forced := 0, ret := r1 },
                              { usecs := 5000000, forced := 1, ret := ret }])) := by
  unfold wait_then_force at h
  cases h1 : nohz_wait 5000 0 k fuel with
  | none => rw [h1] at h; simp at h
  | some w1 =>
    rw [h1] at h
    simp only at h
    by_cases hneg : w1.ret < 0
    · rw [if_pos hneg] at h
      cases h2 : nohz_wait 5000000 1 (k.after (w1.polls + 1) w1.polls) fuel with
      | none => rw [h2] at h; simp at h
      | some w2 =>
        rw [h2] at h
        simp only [Option.some.injEq, Prod.mk.injEq] at h
        obtain ⟨rfl, rfl⟩ := h
        exact ⟨nohz_wait_ret_range _ _ _ _ _ h2, Or.inr ⟨w1.ret, hneg, rfl⟩⟩
    · rw [if_neg hneg] at h
      simp only [Option.some.injEq, Prod.mk.injEq] at h
      obtain ⟨rfl, rfl⟩ := h
      exact ⟨nohz_wait_ret_range _ _ _ _ _ h1, Or.inl ⟨by omega, rfl⟩⟩

theorem wait_then_force_returns (k : Kernel) (hlive : k.Live) :
    ∃ fuel res, ∀ f, fuel ≤ f → wait_then_force k f = some res := by
  obtain ⟨f1, w1, h1⟩ := nohz_wait_returns_live 5000 0 k hlive
  by_cases hneg : w1.ret < 0
  · obtain ⟨f2, w2, h2⟩ := nohz_wait_returns_after 5000000 1 k hlive (w1.polls + 1) w1.polls
    refine ⟨max f1 f2, (w2.ret, [{ usecs := 5000, forced := 0, ret := w1.ret },
      { usecs := 5000000, forced := 1, ret := w2.ret }]), fun f hf => ?_⟩
    unfold wait_then_force
    rw [h1 f (le_trans (le_max_left _ _) hf)]
    simp only [if_pos hneg]
    rw [h2 f (le_trans (le_max_right _ _) hf)]
  · refine ⟨f1, (w1.ret, [{ usecs := 5000, forced := 0, ret := w1.ret }]), fun f hf => ?_⟩
    unfold wait_then_force
    rw [h1 f hf]
    simp only [if_neg hneg]

/-! ### The paths of `rt_thread` -/

theorem rt_thread_cases (env : ThreadEnv) (num_loops : Int) (fuel : Nat) (td : thread_data)
    (run : ThreadRun) (h : rt_thread env num_loops fuel td = some run) :
    (¬ env.setup_ok ∧ run = failedRun td []) ∨
    (env.setup_ok ∧ ∃ ret waits, wait_then_force env.kernel fuel = some (ret, waits) ∧
      ((ret < 0 ∧ run = failedRun td waits) ∨
       (0 ≤ ret ∧ run.td.ret = 0 ∧ run.td.cpu = td.cpu ∧ run.waits = waits ∧
        run.workloads = num_loops.toNat ∧
        run.td.jitter =
          ((workload_loop env.stamp num_loops.toNat 0 0 (2 ^ 64 - 1)).1 + 2 ^ 64 -
            (workload_loop env.stamp num_loops.toNat 0 0 (2 ^ 64 - 1)).2) % 2 ^ 64))) := by
  unfold rt_thread at h
  simp only at h
  by_cases ha : env.set_cpu_affinity < 0
  · rw [if_pos ha, Option.some.injEq] at h
    subst h
    exact Or.inl ⟨fun hs => by have := hs.1; omega, rfl⟩
  · rw [if_neg ha] at h
    by_cases hf : env.set_sched_fifo < 0
    · rw [if_pos hf, Option.some.injEq] at h
      subst h
      exact Or.inl ⟨fun hs => by have := hs.2; omega, rfl⟩
    · rw [if_neg hf] at h
      right
      refine ⟨⟨by omega, by omega⟩, ?_⟩
      cases hw : wait_then_force env.kernel fuel with
      | none => rw [hw] at h; simp at h
      | some res =>
        obtain ⟨ret, waits⟩ := res
        rw [hw] at h
        simp only at h
        refine ⟨ret, waits, rfl, ?_⟩
        by_cases hr : ret < 0
        · rw [if_pos hr, Option.some.injEq] at h
          subst h
          exact Or.inl ⟨hr, rfl⟩
        · rw [if_neg hr, Option.some.injEq] at h
          subst h
          exact Or.inr ⟨by omega, rfl, rfl, rfl, rfl, rfl⟩

theorem rt_thread_returns (env : ThreadEnv) (num_loops : Int) (td : thread_data)
    (h : ¬ env.setup_ok ∨ env.kernel.Live) :
    ∃ fuel run, ∀ f, fuel ≤ f → rt_thread env num_loops f td = some run := by
  by_cases ha : env.set_cpu_affinity < 0
  · exact ⟨0, failedRun td [], fun f _ => by
      unfold rt_thread; simp only [if_pos ha]; rfl⟩
  · by_cases hf : env.set_sched_fifo < 0
    · exact ⟨0, failedRun td [], fun f _ => by
        unfold rt_thread; simp only [if_neg ha, if_pos hf]; rfl⟩
    · have hlive : env.kernel.Live := by
        rcases h with h | h
        · exact absurd ⟨by omega, by omega⟩ h
        · exact h
      obtain ⟨f0, res, hres⟩ := wait_then_force_returns env.kernel hlive
      obtain ⟨ret, waits⟩ := res
      by_cases hr : ret < 0
      · exact ⟨f0, failedRun td waits, fun f hf0 => by
          unfold rt_thread
          simp only [if_neg ha, if_neg hf, hres f hf0, if_pos hr]; rfl⟩
      · exact ⟨f0,
          { td := { td with
              ret := 0
              jitter := ((workload_loop env.stamp num_loops.toNat 0 0 (2 ^ 64 - 1)).1 + 2 ^ 64 -
                (workload_loop env.stamp num_loops.toNat 0 0 (2 ^ 64 - 1)).2) % 2 ^ 64 },
            waits := waits, workloads := num_loops.toNat }, fun f hf0 => by
          unfold rt_thread
          simp only [if_neg ha, if_neg hf, hres f hf0, if_neg hr]⟩

theorem twoPhase_of_calls (ret : Int) (waits : List WaitCall)
    (h : (0 ≤ ret ∧ waits = [{ usecs := 5000, forced := 0, ret := ret }]) ∨
     (∃ r1, r1 < 0 ∧ waits = [{ usecs := 5000, forced := 0, ret := r1 },
                              { usecs := 5000000, forced := 1, ret := ret }])) :
    TwoPhase waits := by
  rcases h with ⟨h0, hw⟩ | ⟨r1, h1, hw⟩
  · exact Or.inl ⟨ret, h0, hw⟩
  · exact Or.inr ⟨r1, ret, h1, hw⟩

theorem example_main_cases (env : ProcessEnv) (fuel : Nat) (run : MainRun)
    (h : example_main env fuel = some run) :
    run.status = 0 ∧ run.nohz_exit_calls = 1 ∧
    ((¬ env.setup_ok ∧ run.waits = []) ∨ (env.setup_ok ∧ TwoPhase run.waits)) := by
  unfold example_main at h
  by_cases h1 : env.nohz_enter ≠ 0
  · rw [if_pos h1, Option.some.injEq] at h; subst h
    exact ⟨rfl, rfl, Or.inl ⟨fun hs => h1 hs.1, rfl⟩⟩
  · rw [if_neg h1] at h
    by_cases h2 : get_nohz_full_cpu env.nohz_full < 0
    · rw [if_pos h2, Option.some.injEq] at h; subst h
      exact ⟨rfl, rfl, Or.inl ⟨fun hs => by have := hs.2.1; omega, rfl⟩⟩
    · rw [if_neg h2] at h
      by_cases h3 : env.set_cpu_affinity < 0
      · rw [if_pos h3, Option.some.injEq] at h; subst h
        exact ⟨rfl, rfl, Or.inl ⟨fun hs => by have := hs.2.2.1; omega, rfl⟩⟩
      · rw [if_neg h3] at h
        by_cases h4 : env.set_sched_fifo < 0
        · rw [if_pos h4, Option.some.injEq] at h; subst h
          exact ⟨rfl, rfl, Or.inl ⟨fun hs => by have := hs.2.2.2; omega, rfl⟩⟩
        · rw [if_neg h4] at h
          have hok : env.setup_ok := ⟨by simpa using h1, by omega, by omega, by omega⟩
          cases hw : wait_then_force env.kernel fuel with
          | none => rw [hw] at h; simp at h
          | some res =>
            obtain ⟨ret, waits⟩ := res
            rw [hw] at h
            simp only [ite_self, Option.some.injEq] at h
            subst h
            exact ⟨rfl, rfl, Or.inr ⟨hok,
              twoPhase_of_calls ret waits (wait_then_force_calls _ _ _ _ hw).2⟩⟩

theorem test_main_cases (env : ProcessEnv) (fuel : Nat) (run : MainRun)
    (h : test_main env fuel = some run) :
    run.nohz_exit_calls = 1 ∧
    ((¬ env.setup_ok ∧ run.waits = []) ∨
     (env.setup_ok ∧ ∃ r, run.waits = [{ usecs := 15000000, forced := 0, ret := r }] ∧
        (r = 0 ∨ r = -1 ∨ r = -2) ∧ run.status = if r < 0 then -1 else 0)) := by
  unfold test_main at h
  by_cases h1 : env.nohz_enter ≠ 0
  · rw [if_pos h1, Option.some.injEq] at h; subst h
    exact ⟨rfl, Or.inl ⟨fun hs => h1 hs.1, rfl⟩⟩
  · rw [if_neg h1] at h
    by_cases h2 : get_nohz_full_cpu env.nohz_full < 0
    · rw [if_pos h2, Option.some.injEq] at h; subst h
      exact ⟨rfl, Or.inl ⟨fun hs => by have := hs.2.1; omega, rfl⟩⟩
    · rw [if_neg h2] at h
      by_cases h3 : env.set_cpu_affinity < 0
      · rw [if_pos h3, Option.some.injEq] at h; subst h
        exact ⟨rfl, Or.inl ⟨fun hs => by have := hs.2.2.1; omega, rfl⟩⟩
      · rw [if_neg h3] at h
        by_cases h4 : env.set_sched_fifo < 0
        · rw [if_pos h4, Option.some.injEq] at h; subst h
          exact ⟨rfl, Or.inl ⟨fun hs => by have := hs.2.2.2; omega, rfl⟩⟩
        · rw [if_neg h4] at h
          have hok : env.setup_ok := ⟨by simpa using h1, by omega, by omega, by omega⟩
          cases hw : nohz_wait MAX_WAIT_US 0 env.kernel fuel with
          | none => rw [hw] at h; simp at h
          | some w =>
            rw [hw] at h
            simp only at h
            have hrange := nohz_wait_ret_range _ _ _ _ _ hw
            by_cases hr : w.ret < 0
            · rw [if_pos hr, Option.some.injEq] at h; subst h
              exact ⟨rfl, Or.inr ⟨hok, w.ret, rfl, hrange, by simp [hr]⟩⟩
            · rw [if_neg hr, Option.some.injEq] at h; subst h
              exact ⟨rfl, Or.inr ⟨hok, w.ret, rfl, hrange, by simp [hr]⟩⟩

theorem example_main_returns (env : ProcessEnv) (h : ¬ env.setup_ok ∨ env.kernel.Live) :
    ∃ fuel run, ∀ f, fuel ≤ f → example_main env f = some run := by
  by_cases hok : env.setup_ok
  · have hlive : env.kernel.Live := h.resolve_left (not_not.mpr hok)
    obtain ⟨f0, res, hres⟩ := wait_then_force_returns env.kernel hlive
    obtain ⟨h1, h2, h3, h4⟩ := hok
    refine ⟨f0, { status := 0, waits := res.2, nohz_exit_calls := 1 }, fun f hf => ?_⟩
    unfold example_main
    rw [if_neg (by simpa using h1), if_neg (by omega), if_neg (by omega), if_neg (by omega),
      hres f hf]
    simp only [ite_self]
  · refine ⟨0, { status := 0, waits := [], nohz_exit_calls := 1 }, fun f _ => ?_⟩
    unfold example_main
    by_cases h1 : env.nohz_enter ≠ 0
    · rw [if_pos h1]
    · rw [if_neg h1]
      by_cases h2 : get_nohz_full_cpu env.nohz_full < 0
      · rw [if_pos h2]
      · rw [if_neg h2]
        by_cases h3 : env.set_cpu_affinity < 0
        · rw [if_pos h3]
        · rw [if_neg h3]
          by_cases h4 : env.set_sched_fifo < 0
          · rw [if_pos h4]
          · exact absurd ⟨by simpa using h1, by omega, by omega, by omega⟩ hok

theorem test_main_returns (env : ProcessEnv) (h : ¬ env.setup_ok ∨ env.kernel.Live) :
    ∃ fuel run, ∀ f, fuel ≤ f → test_main env f = some run := by
  by_cases hok : env.setup_ok
  · have hlive : env.kernel.Live := h.resolve_left (not_not.mpr hok)
    obtain ⟨f0, w, hres⟩ := nohz_wait_returns_live MAX_WAIT_US 0 env.kernel hlive
    obtain ⟨h1, h2, h3, h4⟩ := hok
    refine ⟨f0, if w.ret < 0 then
        { status := -1, waits := [{ usecs := MAX_WAIT_US, forced := 0, ret := w.ret }],
          nohz_exit_calls := 1 }
      else
        { status := 0, waits := [{ usecs := MAX_WAIT_US, forced := 0, ret := w.ret }],
          nohz_exit_calls := 1 }, fun f hf => ?_⟩
    unfold test_main
    rw [if_neg (by simpa using h1), if_neg (by omega), if_neg (by omega), if_neg (by omega),
      hres f hf]
    simp only
    split_ifs <;> rfl
  · refine ⟨0, { status := 0, waits := [], nohz_exit_calls := 1 }, fun f _ => ?_⟩
    unfold test_main
    by_cases h1 : env.nohz_enter ≠ 0
    · rw [if_pos h1]
    · rw [if_neg h1]
      by_cases h2 : get_nohz_full_cpu env.nohz_full < 0
      · rw [if_pos h2]
      · rw [if_neg h2]
        by_cases h3 : env.set_cpu_affinity < 0
        · rw [if_pos h3]
        · rw [if_neg h3]
          by_cases h4 : env.set_sched_fifo < 0
          · rw [if_pos h4]
          · exact absurd ⟨by simpa using h1, by omega, by omega, by omega⟩ hok

/-! ### C4 -/

/-- C4 fails as stated for tif_test.c: with the setup succeeding and the tick
never stopping, its `main` makes one unforced call with a budget of 15000000
microseconds, which fails, and no forced call follows. -/
theorem test_main_single_wait_counterexample :
    test_main neverStoppedProcess 1 =
      some { status := -1, waits := [{ usecs := 15000000, forced := 0, ret := -1 }],
             nohz_exit_calls := 1 } ∧
    ¬ TwoPhase [{ usecs := 15000000, forced := 0, ret := -1 }] := by
  refine ⟨by decide, ?_⟩
  rintro (⟨r1, _, h⟩ | ⟨r1, r2, _, h⟩)
  · simp at h
  · simp at h

/-- C4, amended: `main` of tif_example.c and `rt_thread` of tif_jitter.c, once
their setup has succeeded, call `nohz_wait(5000, 0)` first and call
`nohz_wait(5000000, 1)` after it exactly when the first call returned a negative
value; `main` of tif_test.c makes a single call `nohz_wait(15000000, 0)` and no
forced call.  None of them calls `nohz_wait` when the setup fails, and all of
them finish on a live kernel. -/
theorem wait_calling_convention (penv : ProcessEnv) (tenv : ThreadEnv) (num_loops : Int)
    (td : thread_data) :
    (∀ fuel run, example_main penv fuel = some run →
      (¬ penv.setup_ok ∧ run.waits = []) ∨ (penv.setup_ok ∧ TwoPhase run.waits)) ∧
    (∀ fuel run, rt_thread tenv num_loops fuel td = some run →
      (¬ tenv.setup_ok ∧ run.waits = []) ∨ (tenv.setup_ok ∧ TwoPhase run.waits)) ∧
    (∀ fuel run, test_main penv fuel = some run →
      (¬ penv.setup_ok ∧ run.waits = []) ∨
      (penv.setup_ok ∧ ∃ r, run.waits = [{ usecs := 15000000, forced := 0, ret := r }])) ∧
    (penv.kernel.Live →
      (∃ fuel run, ∀ f, fuel ≤ f → example_main penv f = some run) ∧
      (∃ fuel run, ∀ f, fuel ≤ f → test_main penv f = some run)) ∧
    (tenv.kernel.Live → ∃ fuel run, ∀ f, fuel ≤ f → rt_thread tenv num_loops f td = some run) := by
  refine ⟨?_, ?_, ?_, ?_, ?_⟩
  · intro fuel run h
    exact (example_main_cases penv fuel run h).2.2
  · intro fuel run h
    rcases rt_thread_cases tenv num_loops fuel td run h with ⟨hno, hrun⟩ | ⟨hok, ret, waits, hw, hcase⟩
    · exact Or.inl ⟨hno, by rw [hrun]; rfl⟩
    · right
      refine ⟨hok, ?_⟩
      have htp := twoPhase_of_calls ret waits (wait_then_force_calls _ _ _ _ hw).2
      rcases hcase with ⟨_, hrun⟩ | ⟨_, _, _, hwaits, _⟩
      · rw [hrun]; exact htp
      · rw [hwaits]; exact htp
  · intro fuel run h
    rcases (test_main_cases penv fuel run h).2 with h | ⟨hok, r, hr, _⟩
    · exact Or.inl h
    · exact Or.inr ⟨hok, r, hr⟩
  · intro hlive
    exact ⟨example_main_returns penv (Or.inr hlive), test_main_returns penv (Or.inr hlive)⟩
  · intro hlive
    exact rt_thread_returns tenv num_loops td (Or.inr hlive)

/-- C4 amended, at a run of `main` of tif_example.c in which both waits time
out. -/
theorem wait_calling_convention_witness :
    example_main neverStoppedProcess 1 =
      some { status := 0, waits := [{ usecs := 5000, forced := 0, ret := -1 },
                                    { usecs := 5000000, forced := 1, ret := -1 }],
             nohz_exit_calls := 1 } ∧
    ((¬ neverStoppedProcess.setup_ok ∧
        [({ usecs := 5000, forced := 0, ret := -1 } : WaitCall),
         { usecs := 5000000, forced := 1, ret := -1 }] = []) ∨
     (neverStoppedProcess.setup_ok ∧
        TwoPhase [{ usecs := 5000, forced := 0, ret := -1 },
                  { usecs := 5000000, forced := 1, ret := -1 }])) :=
  ⟨by decide,
   (wait_calling_convention neverStoppedProcess neverStoppedThread 3 ⟨0, 2, 0⟩).1 1
     { status := 0, waits := [{ usecs := 5000, forced := 0, ret := -1 },
                              { usecs := 5000000, forced := 1, ret := -1 }],
       nohz_exit_calls := 1 } (by decide)⟩

/-! ### C5 -/

/-- C5: a finished run of `rt_thread` reports `ret` 0 or -1.  When
`set_cpu_affinity` fails, `set_sched_fifo` fails, or the unforced wait and the
forced retry both return a negative value, it has called `nohz_workload` zero
times and reports -1; so does every run that reports -1.  When it reports 0,
both setup calls succeeded, the last call of `nohz_wait` returned 0 and the
workload ran `num_loops` times.  The run finishes at once when a setup call
fails, and finishes on every live kernel. -/
theorem rt_thread_workload_guard (env : ThreadEnv) (num_loops : Int) (td : thread_data) :
    (∀ fuel run, rt_thread env num_loops fuel td = some run →
      (run.td.ret = 0 ∨ run.td.ret = -1) ∧
      ((env.set_cpu_affinity < 0 ∨ env.set_sched_fifo < 0 ∨
          (∃ w1 w2, run.waits = [w1, w2] ∧ w1.ret < 0 ∧ w2.ret < 0)) →
        run.workloads = 0 ∧ run.td.ret = -1) ∧
      (run.td.ret = -1 → run.workloads = 0) ∧
      (run.td.ret = 0 →
        0 ≤ env.set_cpu_affinity ∧ 0 ≤ env.set_sched_fifo ∧
        (∃ w, run.waits.getLast? = some w ∧ w.ret = 0) ∧
        run.workloads = num_loops.toNat)) ∧
    ((env.set_cpu_affinity < 0 ∨ env.set_sched_fifo < 0) →
      ∀ fuel, rt_thread env num_loops fuel td = some (failedRun td [])) ∧
    (env.kernel.Live → ∃ fuel run, ∀ f, fuel ≤ f → rt_thread env num_loops f td = some run) := by
  refine ⟨?_, ?_, fun hlive => rt_thread_returns env num_loops td (Or.inr hlive)⟩
  · intro fuel run h
    rcases rt_thread_cases env num_loops fuel td run h with
      ⟨hno, hrun⟩ | ⟨hok, ret, waits, hw, hcase⟩
    · subst hrun
      refine ⟨Or.inr rfl, fun _ => ⟨rfl, rfl⟩, fun _ => rfl, fun h0 => ?_⟩
      simp [failedRun] at h0
    · obtain ⟨hrange, hcalls⟩ := wait_then_force_calls _ _ _ _ hw
      rcases hcase with ⟨hneg, hrun⟩ | ⟨hpos, hret, _, hwaits, hwork, _⟩
      · subst hrun
        refine ⟨Or.inr rfl, fun _ => ⟨rfl, rfl⟩, fun _ => rfl, fun h0 => ?_⟩
        simp [failedRun] at h0
      · have hzero : ret = 0 := by
          clear * - hrange hpos
          omega
        refine ⟨Or.inl hret, ?_, ?_, ?_⟩
        · rintro (ha | hf | ⟨w1, w2, hww, _, hw2⟩)
          · have := hok.1; omega
          · have := hok.2; omega
          · rw [hwaits] at hww
            rcases hcalls with ⟨_, hc⟩ | ⟨r1, _, hc⟩
            · rw [hc] at hww; simp at hww
            · rw [hc] at hww
              simp only [List.cons.injEq, and_true] at hww
              rw [← hww.2] at hw2
              simp only at hw2
              omega
        · intro hm; rw [hret] at hm; omega
        · intro _
          refine ⟨hok.1, hok.2, ?_, hwork⟩
          rw [hwaits]
          rcases hcalls with ⟨_, hc⟩ | ⟨r1, _, hc⟩
          · exact ⟨_, by rw [hc]; rfl, hzero⟩
          · exact ⟨_, by rw [hc]; rfl, hzero⟩
  · intro hfail fuel
    unfold rt_thread
    by_cases ha : env.set_cpu_affinity < 0
    · simp only [if_pos ha]; rfl
    · have hf : env.set_sched_fifo < 0 := hfail.resolve_left ha
      simp only [if_neg ha, if_pos hf]; rfl

/-- C5, at a run in which both waits time out: no workload, `ret = -1`. -/
theorem rt_thread_workload_guard_witness :
    rt_thread neverStoppedThread 3 1 ⟨7, 2, 5⟩ = some timedOutRun ∧
    timedOutRun.workloads = 0 ∧ timedOutRun.td.ret = -1 :=
  have h : rt_thread neverStoppedThread 3 1 ⟨7, 2, 5⟩ = some timedOutRun := by decide
  ⟨h, ((rt_thread_workload_guard neverStoppedThread 3 ⟨7, 2, 5⟩).1 1 timedOutRun h).2.1
    (Or.inr (Or.inr ⟨_, _, rfl, by decide, by decide⟩))⟩

/-! ### The workload loop of `rt_thread` -/

theorem duration_lt (stamp : Nat → Nat) (l : Nat) : duration stamp l < 2 ^ 64 :=
  Nat.mod_lt _ (by decide)

theorem workload_loop_spec (stamp : Nat → Nat) :
    ∀ (n l max min : Nat),
      max ≤ (workload_loop stamp n l max min).1 ∧
      (workload_loop stamp n l max min).2 ≤ min ∧
      (∀ i, i < n → duration stamp (l + i) ≤ (workload_loop stamp n l max min).1 ∧
        (workload_loop stamp n l max min).2 ≤ duration stamp (l + i)) ∧
      ((workload_loop stamp n l max min).1 = max ∨
        ∃ i, i < n ∧ (workload_loop stamp n l max min).1 = duration stamp (l + i)) ∧
      ((workload_loop stamp n l max min).2 = min ∨
        ∃ i, i < n ∧ (workload_loop stamp n l max min).2 = duration stamp (l + i)) := by
  intro n
  induction n with
  | zero =>
    intro l max min
    simp [workload_loop]
  | succ n ih =>
    intro l max min
    simp only [workload_loop]
    obtain ⟨h1, h2, h3, h4, h5⟩ := ih (l + 1)
      (if duration stamp l > max then duration stamp l else max)
      (if duration stamp l < min then duration stamp l else min)
    have hmax : max ≤ (if duration stamp l > max then duration stamp l else max) ∧
        duration stamp l ≤ (if duration stamp l > max then duration stamp l else max) := by
      split_ifs <;> omega
    have hmin : (if duration stamp l < min then duration stamp l else min) ≤ min ∧
        (if duration stamp l < min then duration stamp l else min) ≤ duration stamp l := by
      split_ifs <;> omega
    refine ⟨le_trans hmax.1 h1, le_trans h2 hmin.1, ?_, ?_, ?_⟩
    · intro i hi
      cases i with
      | zero => exact ⟨le_trans hmax.2 h1, le_trans h2 hmin.2⟩
      | succ i =>
        have := h3 i (by omega)
        have e : l + 1 + i = l + (i + 1) := by omega
        rw [e] at this
        exact this
    · rcases h4 with h4 | ⟨i, hi, h4⟩
      · by_cases hc : duration stamp l > max
        · right; exact ⟨0, by omega, by rw [h4, if_pos hc]; rfl⟩
        · left; rw [h4, if_neg hc]
      · right
        refine ⟨i + 1, by omega, ?_⟩
        rw [h4]
        have e : l + 1 + i = l + (i + 1) := by omega
        rw [e]
    · rcases h5 with h5 | ⟨i, hi, h5⟩
      · by_cases hc : duration stamp l < min
        · right; exact ⟨0, by omega, by rw [h5, if_pos hc]; rfl⟩
        · left; rw [h5, if_neg hc]
      · right
        refine ⟨i + 1, by omega, ?_⟩
        rw [h5]
        have e : l + 1 + i = l + (i + 1) := by omega
        rw [e]

theorem mem_durations (stamp : Nat → Nat) (n : Nat) (d : Nat) :
    d ∈ durations stamp n ↔ ∃ i, i < n ∧ d = duration stamp i := by
  simp only [durations, List.mem_map, List.mem_range]
  constructor
  · rintro ⟨i, hi, rfl⟩; exact ⟨i, hi, rfl⟩
  · rintro ⟨i, hi, rfl⟩; exact ⟨i, hi, rfl⟩

theorem trial_jitter_spec (stamp : Nat → Nat) (num_loops : Int) (h : 1 ≤ num_loops) :
    ∃ hi lo, hi ∈ durations stamp num_loops.toNat ∧ lo ∈ durations stamp num_loops.toNat ∧
      (∀ d ∈ durations stamp num_loops.toNat, lo ≤ d ∧ d ≤ hi) ∧
      trial_jitter stamp num_loops = hi - lo := by
  obtain ⟨n, hn⟩ : ∃ n, num_loops.toNat = n + 1 := ⟨num_loops.toNat - 1, by omega⟩
  obtain ⟨_, _, h3, h4, h5⟩ := workload_loop_spec stamp (n + 1) 0 0 (2 ^ 64 - 1)
  have hb := h3 0 (by omega)
  have hlt := duration_lt stamp 0
  simp only [Nat.zero_add] at h3 hb h4 h5
  unfold trial_jitter
  rw [hn]
  refine ⟨(workload_loop stamp (n + 1) 0 0 (2 ^ 64 - 1)).1,
    (workload_loop stamp (n + 1) 0 0 (2 ^ 64 - 1)).2, ?_, ?_, ?_, ?_⟩
  · rw [mem_durations]
    rcases h4 with h4 | h4
    · exact ⟨0, by omega, by omega⟩
    · exact h4
  · rw [mem_durations]
    rcases h5 with h5 | h5
    · exact ⟨0, by omega, by norm_num at hlt h5 hb ⊢; omega⟩
    · exact h5
  · intro d hd
    obtain ⟨i, hi, rfl⟩ := (mem_durations stamp (n + 1) d).mp hd
    exact ⟨(h3 i hi).2, (h3 i hi).1⟩
  · have hle : (workload_loop stamp (n + 1) 0 0 (2 ^ 64 - 1)).2 ≤
        (workload_loop stamp (n + 1) 0 0 (2 ^ 64 - 1)).1 := le_trans hb.2 hb.1
    have hlt1 : (workload_loop stamp (n + 1) 0 0 (2 ^ 64 - 1)).1 < 2 ^ 64 := by
      rcases h4 with h4 | ⟨i, _, h4⟩
      · rw [h4]; decide
      · rw [h4]; exact duration_lt stamp i
    generalize (workload_loop stamp (n + 1) 0 0 (2 ^ 64 - 1)).1 = a at hle hlt1 ⊢
    generalize (workload_loop stamp (n + 1) 0 0 (2 ^ 64 - 1)).2 = b at hle ⊢
    have e : a + 2 ^ 64 - b = (a - b) + 2 ^ 64 := by omega
    rw [e, Nat.add_mod_right, Nat.mod_eq_of_lt (by omega)]

/-! ### The accumulators of the campaign -/

theorem recordAll_cons (s : Stats) (j : Nat) (js : List Nat) :
    recordAll s (j :: js) = recordAll (record_jitter s j) js := rfl

theorem recordAll_spec :
    ∀ (js : List Nat) (s : Stats),
      (0 ≤ s.tests_done → s.tests_done + js.length < 2 ^ 31 →
        (recordAll s js).tests_done = s.tests_done + js.length) ∧
      (recordAll s js).avg % 2 ^ 64 = (s.avg + js.sum) % 2 ^ 64 ∧
      s.cmax ≤ (recordAll s js).cmax ∧
      (∀ j ∈ js, j ≤ (recordAll s js).cmax) ∧
      ((recordAll s js).cmax = s.cmax ∨ (recordAll s js).cmax ∈ js) ∧
      (recordAll s js).cmin ≤ s.cmin ∧
      (∀ j ∈ js, (recordAll s js).cmin ≤ j) ∧
      ((recordAll s js).cmin = s.cmin ∨ (recordAll s js).cmin ∈ js) := by
  intro js
  induction js with
  | nil => intro s; simp [recordAll]
  | cons j js ih =>
    intro s
    rw [recordAll_cons]
    obtain ⟨h1, h2, h3, h4, h5, h6, h7, h8⟩ := ih (record_jitter s j)
    have hmax : s.cmax ≤ (record_jitter s j).cmax ∧ j ≤ (record_jitter s j).cmax ∧
        ((record_jitter s j).cmax = s.cmax ∨ (record_jitter s j).cmax = j) := by
      simp only [record_jitter]; split_ifs <;> omega
    have hmin : (record_jitter s j).cmin ≤ s.cmin ∧ (record_jitter s j).cmin ≤ j ∧
        ((record_jitter s j).cmin = s.cmin ∨ (record_jitter s j).cmin = j) := by
      simp only [record_jitter]; split_ifs <;> omega
    refine ⟨?_, ?_, le_trans hmax.1 h3, ?_, ?_, le_trans h6 hmin.1, ?_, ?_⟩
    · intro h0 hb
      simp only [List.length_cons, Nat.cast_add, Nat.cast_one] at hb
      have hstep : (record_jitter s j).tests_done = s.tests_done + 1 := by
        simp only [record_jitter]
        exact wrapInt_of_range _ (by omega) (by omega)
      rw [h1 (by rw [hstep]; omega) (by rw [hstep]; omega), hstep]
      simp only [List.length_cons, Nat.cast_add, Nat.cast_one]
      ring
    · rw [h2]
      simp only [record_jitter, List.sum_cons]
      rw [Nat.mod_add_mod, Nat.add_assoc]
    · intro x hx
      rcases List.mem_cons.mp hx with rfl | hx
      · exact le_trans hmax.2.1 h3
      · exact h4 x hx
    · rcases h5 with h5 | h5
      · rcases hmax.2.2 with hm | hm
        · left; rw [h5, hm]
        · right; rw [h5, hm]; exact List.mem_cons_self _ _
      · right; exact List.mem_cons_of_mem _ h5
    · intro x hx
      rcases List.mem_cons.mp hx with rfl | hx
      · exact le_trans h6 hmin.2.1
      · exact h7 x hx
    · rcases h8 with h8 | h8
      · rcases hmin.2.2 with hm | hm
        · left; rw [h8, hm]
        · right; rw [h8, hm]; exact List.mem_cons_self _ _
      · right; exact List.mem_cons_of_mem _ h8

theorem recordAll_avg_lt (js : List Nat) (s : Stats) (h : s.avg < 2 ^ 64) :
    (recordAll s js).avg < 2 ^ 64 := by
  induction js generalizing s with
  | nil => exact h
  | cons j js ih =>
    rw [recordAll_cons]
    exact ih _ (Nat.mod_lt _ (by decide))

theorem reportAll_jitters : ∀ (js : List Nat) (s : Stats),
    (reportAll s js).map Report.jitter = js := by
  intro js
  induction js with
  | nil => intro s; rfl
  | cons j js ih => intro s; simp [reportAll, print_jitter, ih]

theorem reportAll_length (js : List Nat) (s : Stats) : (reportAll s js).length = js.length := by
  rw [← List.length_map (reportAll s js) Report.jitter, reportAll_jitters]

theorem reportAll_mem : ∀ (js : List Nat) (s : Stats) (r : Report), r ∈ reportAll s js →
    ∃ pre j post, js = pre ++ j :: post ∧ r = print_jitter (recordAll s (pre ++ [j])) j := by
  intro js
  induction js with
  | nil => intro s r h; simp [reportAll] at h
  | cons j js ih =>
    intro s r h
    simp only [reportAll, List.mem_cons] at h
    rcases h with rfl | h
    · exact ⟨[], j, js, rfl, rfl⟩
    · obtain ⟨pre, j2, post, hjs, hr⟩ := ih _ r h
      exact ⟨j :: pre, j2, post, by rw [hjs]; rfl, hr⟩

theorem trialJitters_succ (env : JitterEnv) (i n : Nat) :
    trialJitters env i (n + 1) =
      trial_jitter (env.thread i).stamp env.num_loops :: trialJitters env (i + 1) n := by
  simp only [trialJitters, List.range_succ_eq_map, List.map_cons, List.map_map, Nat.add_zero]
  congr 1
  apply List.map_congr_left
  intro k _
  simp only [Function.comp, Nat.succ_eq_add_one]
  have e : i + (k + 1) = i + 1 + k := by omega
  rw [e]

theorem campaign_loop_spec (env : JitterEnv) (wfuel : Nat) :
    ∀ (fuel i : Nat) (td : thread_data) (s : Stats) (reports : List Report) (e : Ending)
      (s2 : Stats) (reports2 : List Report),
      campaign_loop env wfuel fuel i td s reports = some (e, s2, reports2) →
      ∃ n, s2 = recordAll s (trialJitters env i n) ∧
        reports2 = reports ++ reportAll s (trialJitters env i n) ∧
        (e = Ending.create → env.pthread_create (i + n) ≠ 0) := by
  intro fuel
  induction fuel with
  | zero => intro i td s reports e s2 reports2 h; simp [campaign_loop] at h
  | succ fuel ih =>
    intro i td s reports e s2 reports2 h
    simp only [campaign_loop] at h
    by_cases hstop : stop_requested env i s = true
    · rw [if_pos hstop] at h
      simp only [Option.some.injEq, Prod.mk.injEq] at h
      obtain ⟨rfl, rfl, rfl⟩ := h
      exact ⟨0, rfl, by simp [trialJitters, reportAll], by intro hc; cases hc⟩
    · rw [if_neg hstop] at h
      by_cases hcreate : env.pthread_create i ≠ 0
      · rw [if_pos hcreate] at h
        simp only [Option.some.injEq, Prod.mk.injEq] at h
        obtain ⟨rfl, rfl, rfl⟩ := h
        exact ⟨0, rfl, by simp [trialJitters, reportAll], fun _ => hcreate⟩
      rw [if_neg hcreate] at h
      cases hrun : rt_thread (env.thread i) env.num_loops wfuel { td with cpu := env.nohz_cpu } with
      | none => rw [hrun] at h; simp at h
      | some run =>
        rw [hrun] at h
        simp only at h
        by_cases hret : run.td.ret = -1
        · rw [if_pos hret] at h
          simp only [Option.some.injEq, Prod.mk.injEq] at h
          obtain ⟨rfl, rfl, rfl⟩ := h
          exact ⟨0, rfl, by simp [trialJitters, reportAll], by intro hc; cases hc⟩
        · rw [if_neg hret] at h
          have hj : run.td.jitter = trial_jitter (env.thread i).stamp env.num_loops := by
            rcases rt_thread_cases _ _ _ _ _ hrun with ⟨_, hf⟩ | ⟨_, ret, waits, _, hc⟩
            · rw [hf] at hret; exact absurd rfl hret
            · rcases hc with ⟨_, hf⟩ | ⟨_, _, _, _, _, hjit⟩
              · rw [hf] at hret; exact absurd rfl hret
              · exact hjit
          obtain ⟨n, hs, hr, hc⟩ := ih _ _ _ _ _ _ _ h
          refine ⟨n + 1, ?_, ?_, ?_⟩
          · rw [trialJitters_succ, recordAll_cons, ← hj]; exact hs
          · rw [trialJitters_succ, hr, ← hj]
            simp [reportAll]
          · intro he
            have := hc he
            have e2 : i + (n + 1) = i + 1 + n := by omega
            rw [e2]; exact this

theorem jitter_main_spec (env : JitterEnv) (wfuel fuel : Nat) (run : JitterRun)
    (h : jitter_main env wfuel fuel = some run) :
    (∃ n, run.stats = recordAll Stats.init (trialJitters env 0 n) ∧
      run.reports = reportAll Stats.init (trialJitters env 0 n)) ∧
    ((run.ending = Ending.create ∧ run.nohz_exit_calls = 0 ∧ run.status = 1) ∨
     (run.ending ≠ Ending.create ∧ run.nohz_exit_calls = 1 ∧ run.status = 0)) := by
  unfold jitter_main at h
  by_cases h1 : env.parse_args ≠ 0
  · rw [if_pos h1, Option.some.injEq] at h
    subst h
    exact ⟨⟨0, rfl, rfl⟩, Or.inr ⟨by decide, rfl, rfl⟩⟩
  · rw [if_neg h1] at h
    by_cases h2 : env.nohz_enter ≠ 0
    · rw [if_pos h2, Option.some.injEq] at h
      subst h
      exact ⟨⟨0, rfl, rfl⟩, Or.inr ⟨by decide, rfl, rfl⟩⟩
    · rw [if_neg h2] at h
      cases hloop : campaign_loop env wfuel fuel 0 env.td Stats.init [] with
      | none => rw [hloop] at h; simp at h
      | some res =>
        obtain ⟨e, s, reports⟩ := res
        obtain ⟨n, hs, hr, _⟩ := campaign_loop_spec env wfuel fuel 0 env.td Stats.init [] e s
          reports hloop
        rw [hloop] at h
        cases e <;> simp only [Option.some.injEq] at h <;> subst h
        all_goals first
          | exact ⟨⟨n, hs, by simpa using hr⟩, Or.inl ⟨rfl, rfl, rfl⟩⟩
          | exact ⟨⟨n, hs, by simpa using hr⟩, Or.inr ⟨by simp, rfl, rfl⟩⟩

theorem sum_replicate_nat (n j : Nat) : (List.replicate n j).sum = n * j := by
  induction n with
  | zero => simp
  | succ n ih => rw [List.replicate_succ, List.sum_cons, ih]; ring

theorem trialJitters_length (env : JitterEnv) (i n : Nat) :
    (trialJitters env i n).length = n := by
  simp [trialJitters]

theorem workload_loop_congr (s1 s2 : Nat → Nat) (h : ∀ l, duration s1 l = duration s2 l) :
    ∀ (n l max min : Nat), workload_loop s1 n l max min = workload_loop s2 n l max min := by
  intro n
  induction n with
  | zero => intro l max min; rfl
  | succ n ih =>
    intro l max min
    simp only [workload_loop, h l, ih]

theorem trialJitters_same (env : JitterEnv)
    (h : ∀ k l, duration (env.thread k).stamp l = duration (env.thread 0).stamp l) (n : Nat) :
    trialJitters env 0 n =
      List.replicate n (trial_jitter (env.thread 0).stamp env.num_loops) := by
  apply List.eq_replicate_iff.mpr
  refine ⟨trialJitters_length env 0 n, ?_⟩
  intro j hj
  simp only [trialJitters, List.mem_map, Nat.zero_add] at hj
  obtain ⟨k, _, rfl⟩ := hj
  unfold trial_jitter
  rw [workload_loop_congr _ _ (h k)]

theorem replicate_split (n j : Nat) (pre post : List Nat) (x : Nat)
    (h : List.replicate n j = pre ++ x :: post) :
    pre ++ [x] = List.replicate (pre.length + 1) j ∧ pre.length + 1 ≤ n := by
  have hall : ∀ y ∈ pre ++ x :: post, y = j := by
    intro y hy
    rw [← h] at hy
    exact (List.mem_replicate.mp hy).2
  have hlen : n = pre.length + (post.length + 1) := by
    have := congrArg List.length h
    simpa using this
  refine ⟨?_, by omega⟩
  apply List.eq_replicate_iff.mpr
  refine ⟨by simp, ?_⟩
  intro y hy
  apply hall
  rcases List.mem_append.mp hy with hy | hy
  · exact List.mem_append_left _ hy
  · simp only [List.mem_singleton] at hy
    subst hy
    exact List.mem_append_right _ (List.mem_cons_self _ _)

theorem mean_of_replicate (k j : Nat) (hk : 1 ≤ k) (hk31 : k < 2 ^ 31)
    (h : k * j < 2 ^ 64) :
    (print_jitter (recordAll Stats.init (List.replicate k j)) j).mean = j := by
  obtain ⟨h1, h2, _⟩ := recordAll_spec (List.replicate k j) Stats.init
  have hlt := recordAll_avg_lt (List.replicate k j) Stats.init (by decide)
  have ht : (recordAll Stats.init (List.replicate k j)).tests_done = (k : Int) := by
    have hinit : Stats.init.tests_done = 0 := rfl
    rw [h1 (by rw [hinit]) (by rw [hinit, List.length_replicate]; omega), hinit,
      List.length_replicate]
    simp
  have ha : (recordAll Stats.init (List.replicate k j)).avg = k * j := by
    rw [Nat.mod_eq_of_lt hlt, sum_replicate_nat] at h2
    rw [h2]
    simp only [Stats.init, Nat.zero_add]
    exact Nat.mod_eq_of_lt h
  simp only [print_jitter, ht, ha]
  by_cases hj : j = 0
  · subst hj; simp
  · have hk64 : k < 2 ^ 64 := by
      have : k * 1 ≤ k * j := Nat.mul_le_mul_left k (by omega)
      omega
    have e : ((k : Int) % 2 ^ 64).toNat = k := by
      have h1 : ((k : Int) % 2 ^ 64) = k := by
        apply Int.emod_eq_of_lt <;> omega
      rw [h1]; simp
    rw [e]
    exact Nat.mul_div_cancel_left j (by omega)

/-- C9 fails as stated: in a campaign of two trials whose timestamps give the
durations `0` and `2 ^ 63` in each trial, both trials report the jitter
`2 ^ 63`, and the mean printed after the second trial is 0. -/
theorem mean_overflow_counterexample :
    durations (hugeStamps 0) 2 = [0, 2 ^ 63] ∧ durations (hugeStamps 1) 2 = [0, 2 ^ 63] ∧
    jitter_main (quietCampaign 2 2 0 hugeStamps) 1 5 =
      some { status := 0, ending := Ending.stop, nohz_exit_calls := 1,
             stats := { cmax := 2 ^ 63, cmin := 2 ^ 63, avg := 0, tests_done := 2 },
             reports := [{ tests_done := 1, jitter := 2 ^ 63, cmax := 2 ^ 63, cmin := 2 ^ 63,
                           mean := 2 ^ 63 },
                         { tests_done := 2, jitter := 2 ^ 63, cmax := 2 ^ 63, cmin := 2 ^ 63,
                           mean := 0 }] } := by
  refine ⟨by decide, by decide, by decide⟩

/-- C9, amended: a run of `rt_thread` that reports `ret = 0` with
`num_loops >= 1` stores in `td->jitter` the largest minus the smallest of the
`num_loops` durations `end - start` it measured (each a `uint64_t` difference);
and in a campaign whose trials all observe the same durations every line printed
carries that same jitter, and carries a mean equal to it as long as the number
of trials stays below `2 ^ 31`, the range of the `int` `tests_done`, and the
number of trials times the jitter stays below `2 ^ 64`. -/
theorem jitter_spread_and_mean (tenv : ThreadEnv) (env : JitterEnv) :
    (∀ num_loops fuel td trun, rt_thread tenv num_loops fuel td = some trun →
      trun.td.ret = 0 → 1 ≤ num_loops →
      ∃ hi lo, hi ∈ durations tenv.stamp num_loops.toNat ∧
        lo ∈ durations tenv.stamp num_loops.toNat ∧
        (∀ d ∈ durations tenv.stamp num_loops.toNat, lo ≤ d ∧ d ≤ hi) ∧
        trun.td.jitter = hi - lo) ∧
    (∀ wfuel fuel run, jitter_main env wfuel fuel = some run →
      (∀ k l, duration (env.thread k).stamp l = duration (env.thread 0).stamp l) →
      (∀ r ∈ run.reports, r.jitter = trial_jitter (env.thread 0).stamp env.num_loops) ∧
      (run.reports.length < 2 ^ 31 →
        run.reports.length * trial_jitter (env.thread 0).stamp env.num_loops < 2 ^ 64 →
        ∀ r ∈ run.reports, r.mean = trial_jitter (env.thread 0).stamp env.num_loops)) := by
  constructor
  · intro num_loops fuel td trun hrun hret hloops
    have hj : trun.td.jitter = trial_jitter tenv.stamp num_loops := by
      rcases rt_thread_cases _ _ _ _ _ hrun with ⟨_, hf⟩ | ⟨_, ret, waits, _, hc⟩
      · rw [hf] at hret; simp [failedRun] at hret
      · rcases hc with ⟨_, hf⟩ | ⟨_, _, _, _, _, hjit⟩
        · rw [hf] at hret; simp [failedRun] at hret
        · exact hjit
    rw [hj]
    exact trial_jitter_spec tenv.stamp num_loops hloops
  · intro wfuel fuel run hrun hsame
    obtain ⟨⟨n, _, hr⟩, _⟩ := jitter_main_spec env wfuel fuel run hrun
    rw [trialJitters_same env hsame n] at hr
    have hlen : run.reports.length = n := by
      rw [hr, reportAll_length, List.length_replicate]
    generalize trial_jitter (env.thread 0).stamp env.num_loops = j at *
    constructor
    · intro r hrmem
      have hmem := List.mem_map_of_mem Report.jitter hrmem
      rw [hr, reportAll_jitters] at hmem
      exact (List.mem_replicate.mp hmem).2
    · intro hcount hprod r hrmem
      rw [hr] at hrmem
      obtain ⟨pre, x, post, hsplit, hrep⟩ := reportAll_mem _ _ r hrmem
      obtain ⟨hpre, hle⟩ := replicate_split n j pre post x hsplit
      have hx : x = j := by
        have : x ∈ List.replicate n j := by rw [hsplit]; simp
        exact (List.mem_replicate.mp this).2
      rw [hrep, hpre, hx]
      apply mean_of_replicate _ _ (by omega) (by omega)
      rw [hlen] at hprod
      calc (pre.length + 1) * j ≤ n * j := Nat.mul_le_mul_right j hle
        _ < 2 ^ 64 := hprod

/-- C9 amended, at two campaigns of two trials of two loops: with the
timestamps `0, 10, 20, 33` in every trial the durations are 10 and 13, a run of
`rt_thread` stores the jitter 3 = 13 - 10, and both lines printed carry jitter 3
and mean 3; with the timestamps `0, 10, 20, 30` both carry jitter 0 and mean
0. -/
theorem jitter_spread_and_mean_witness :
    rt_thread (quietThread (spreadStamps 0)) 2 1 ⟨0, 2, 0⟩ = some spreadTrial ∧
    spreadTrial.td.jitter = 3 ∧
    (∃ hi lo, hi ∈ durations (quietThread (spreadStamps 0)).stamp (2 : Int).toNat ∧
      lo ∈ durations (quietThread (spreadStamps 0)).stamp (2 : Int).toNat ∧
      (∀ d ∈ durations (quietThread (spreadStamps 0)).stamp (2 : Int).toNat, lo ≤ d ∧ d ≤ hi) ∧
      spreadTrial.td.jitter = hi - lo) ∧
    jitter_main (quietCampaign 2 2 0 spreadStamps) 1 5 = some spreadRun ∧
    durations (spreadStamps 0) 2 = [10, 13] ∧
    trial_jitter ((quietCampaign 2 2 0 spreadStamps).thread 0).stamp 2 = 3 ∧
    (∀ r ∈ spreadRun.reports,
      r.jitter = trial_jitter ((quietCampaign 2 2 0 spreadStamps).thread 0).stamp
        (quietCampaign 2 2 0 spreadStamps).num_loops) ∧
    (∀ r ∈ spreadRun.reports,
      r.mean = trial_jitter ((quietCampaign 2 2 0 spreadStamps).thread 0).stamp
        (quietCampaign 2 2 0 spreadStamps).num_loops) ∧
    jitter_main (quietCampaign 2 2 0 steadyStamps) 1 5 = some steadyRun ∧
    (∀ r ∈ steadyRun.reports,
      r.mean = trial_jitter ((quietCampaign 2 2 0 steadyStamps).thread 0).stamp
        (quietCampaign 2 2 0 steadyStamps).num_loops) :=
  have h : jitter_main (quietCampaign 2 2 0 spreadStamps) 1 5 = some spreadRun := by decide
  have h0 : jitter_main (quietCampaign 2 2 0 steadyStamps) 1 5 = some steadyRun := by decide
  have hw := (jitter_spread_and_mean (quietThread (spreadStamps 0))
    (quietCampaign 2 2 0 spreadStamps)).2 1 5 spreadRun h (fun _ _ => rfl)
  have hw0 := (jitter_spread_and_mean (quietThread (steadyStamps 0))
    (quietCampaign 2 2 0 steadyStamps)).2 1 5 steadyRun h0 (fun _ _ => rfl)
  have ht : rt_thread (quietThread (spreadStamps 0)) 2 1 ⟨0, 2, 0⟩ = some spreadTrial := by
    decide
  ⟨ht, by decide,
    (jitter_spread_and_mean (quietThread (spreadStamps 0))
      (quietCampaign 2 2 0 spreadStamps)).1 2 1 ⟨0, 2, 0⟩ spreadTrial ht (by decide) (by decide),
    h, by decide, by decide, hw.1, hw.2 (by decide) (by decide), h0,
    hw0.2 (by decide) (by decide)⟩

/-! ### C10 -/

/-- C10 fails on the code: when `pthread_create` fails (here with `EAGAIN`, 11,
at the first trial) `main` of tif_jitter.c ends through `exit(EXIT_FAILURE)`
with zero calls of `nohz_exit`.  In every finished run, that ending has zero
calls and exit status 1, and every other ending exactly one call and status 0;
and the ending is taken whenever the first `pthread_create` fails after a
successful start. -/
theorem nohz_exit_skipped_on_create_failure :
    jitter_main (quietCampaign 2 2 11 steadyStamps) 1 5 =
      some { status := 1, ending := Ending.create, nohz_exit_calls := 0, stats := Stats.init,
             reports := [] } ∧
    (∀ env wfuel fuel run, jitter_main env wfuel fuel = some run →
      (run.ending = Ending.create ∧ run.nohz_exit_calls = 0 ∧ run.status = 1) ∨
      (run.ending ≠ Ending.create ∧ run.nohz_exit_calls = 1 ∧ run.status = 0)) ∧
    (∀ env wfuel fuel, env.parse_args = 0 → env.nohz_enter = 0 →
      stop_requested env 0 Stats.init = false → env.pthread_create 0 ≠ 0 →
      jitter_main env wfuel (fuel + 1) =
        some { status := 1, ending := Ending.create, nohz_exit_calls := 0, stats := Stats.init,
               reports := [] }) := by
  refine ⟨by decide, fun env wfuel fuel run h => (jitter_main_spec env wfuel fuel run h).2, ?_⟩
  intro env wfuel fuel h1 h2 h3 h4
  simp [jitter_main, campaign_loop, h1, h2, h3, h4]

/-! ### C11 -/

theorem fgets_renderNat_line (n : Nat) (hn : n < 2 ^ 31) :
    fgets 128 (renderNat n ++ ['\n']) = some (renderNat n ++ ['\n']) := by
  have hne : renderNat n ++ ['\n'] ≠ [] := by simp
  have hlen := renderNat_length n hn
  have htake : takeLine 127 (renderNat n ++ ['\n']) =
      renderNat n ++ takeLine (127 - (renderNat n).length) ['\n'] :=
    takeLine_append _ _ _ (fun x hx => (renderNat_chars n x hx).2) (by omega)
  obtain ⟨m, hm⟩ : ∃ m, 127 - (renderNat n).length = m + 1 :=
    ⟨126 - (renderNat n).length, by omega⟩
  simp only [fgets, if_neg hne, Nat.add_one_sub_one, htake, hm, takeLine, if_true]

theorem set_sched_runtime_schedFilesOf (p : Nat) (hint : p < 2 ^ 31) (perc : Int) :
    set_sched_runtime (schedFilesOf p) perc =
      { ret := 0,
        written := some (if perc < 100 then
          Int.tdiv (wrapInt ((p : Int) * (if perc < 95 then 95 else perc))) 100 else -1) } := by
  simp only [set_sched_runtime, schedFilesOf, fgets_renderNat_line p hint,
    atoi_renderNat p hint '\n' [] (by decide), if_true]

/-- C11 fails as stated.  With a period of 1 microsecond `nohz_exit` writes 0,
which is not at least 95% of the period.  With a period of 30000000
microseconds, representable as an `int`, the `int` product `p * 95` leaves the
range of `int`: the two's-complement result divided by 100 is -14449672, not
`floor (30000000 * 95 / 100) = 28500000`, and not between 0 and the period. -/
theorem set_sched_runtime_counterexample :
    nohz_exit (schedFilesOf 1) = { ret := 0, written := some 0 } ∧
    ¬ ((95 : Int) * 1 ≤ 100 * 0) ∧
    nohz_exit (schedFilesOf 30000000) = { ret := 0, written := some (-14449672) } ∧
    (30000000 : Int) < 2 ^ 31 ∧ (30000000 : Int) * 95 / 100 = 28500000 ∧
    ¬ ((0 : Int) ≤ -14449672) := by
  refine ⟨?_, by decide, ?_, by decide, by decide, by decide⟩
  · rw [nohz_exit, set_sched_runtime_schedFilesOf 1 (by decide)]
    decide
  · rw [nohz_exit, set_sched_runtime_schedFilesOf 30000000 (by decide)]
    decide

/-- C11, amended: for a positive period `p` read from `sched_rt_period_us` and
representable as an `int`, `nohz_enter` writes -1, and `set_sched_runtime(perc)`
writes -1 when `perc >= 100`; when `perc < 100` and the product
`p * max(perc, 95)` is representable as an `int`, it writes
`r = floor (p * max(perc, 95) / 100)`, with `0 <= r <= p`, at most 99% of the
period and less than one microsecond below 95% of it
(`95 * p - 99 <= 100 * r <= 99 * p`); `nohz_exit` is the case `perc = 95`. -/
theorem set_sched_runtime_written (p : Nat) (hp : 0 < p) (hint : p < 2 ^ 31) :
    nohz_enter (schedFilesOf p) = { ret := 0, written := some (-1) } ∧
    (∀ perc : Int, 100 ≤ perc →
      set_sched_runtime (schedFilesOf p) perc = { ret := 0, written := some (-1) }) ∧
    (∀ perc : Int, perc < 100 → (p : Int) * max perc 95 < 2 ^ 31 →
      set_sched_runtime (schedFilesOf p) perc =
        { ret := 0, written := some ((p : Int) * max perc 95 / 100) } ∧
      0 ≤ (p : Int) * max perc 95 / 100 ∧ (p : Int) * max perc 95 / 100 ≤ p ∧
      95 * (p : Int) - 99 ≤ 100 * ((p : Int) * max perc 95 / 100) ∧
      100 * ((p : Int) * max perc 95 / 100) ≤ 99 * p) ∧
    ((p : Int) * 95 < 2 ^ 31 →
      nohz_exit (schedFilesOf p) = { ret := 0, written := some ((p : Int) * 95 / 100) } ∧
      0 ≤ (p : Int) * 95 / 100 ∧ (p : Int) * 95 / 100 ≤ p) := by
  have hgen : ∀ perc : Int, perc < 100 → (p : Int) * max perc 95 < 2 ^ 31 →
      set_sched_runtime (schedFilesOf p) perc =
        { ret := 0, written := some ((p : Int) * max perc 95 / 100) } ∧
      0 ≤ (p : Int) * max perc 95 / 100 ∧ (p : Int) * max perc 95 / 100 ≤ p ∧
      95 * (p : Int) - 99 ≤ 100 * ((p : Int) * max perc 95 / 100) ∧
      100 * ((p : Int) * max perc 95 / 100) ≤ 99 * p := by
    intro perc hlt hprod
    have hmax : (if perc < 95 then 95 else perc) = max perc 95 := by
      split_ifs with h
      · exact (max_eq_right (by omega)).symm
      · exact (max_eq_left (by omega)).symm
    have hq1 : 95 ≤ max perc 95 := le_max_right _ _
    have hq2 : max perc 95 ≤ 99 := max_le (by omega) (by decide)
    have hp0 : (0 : Int) ≤ p := by omega
    have hx1 : 95 * (p : Int) ≤ (p : Int) * max perc 95 := by
      have := mul_le_mul_of_nonneg_left hq1 hp0
      omega
    have hx2 : (p : Int) * max perc 95 ≤ 99 * (p : Int) := by
      have := mul_le_mul_of_nonneg_left hq2 hp0
      omega
    have hset : set_sched_runtime (schedFilesOf p) perc =
        { ret := 0, written := some ((p : Int) * max perc 95 / 100) } := by
      rw [set_sched_runtime_schedFilesOf p hint, if_pos hlt, hmax,
        wrapInt_of_range _ (by omega) hprod, Int.tdiv_eq_ediv (by omega) (by decide)]
    refine ⟨hset, ?_⟩
    generalize (p : Int) * max perc 95 = x at hprod hx1 hx2 ⊢
    refine ⟨by omega, by omega, by omega, by omega⟩
  refine ⟨?_, ?_, hgen, ?_⟩
  · have h100 : set_sched_runtime (schedFilesOf p) 100 = { ret := 0, written := some (-1) } := by
      rw [set_sched_runtime_schedFilesOf p hint, if_neg (by decide)]
    simp only [nohz_enter, h100]
    rfl
  · intro perc hge
    rw [set_sched_runtime_schedFilesOf p hint, if_neg (by omega)]
  · intro h95
    have h := hgen 95 (by decide) (by simpa using h95)
    simp only [max_self] at h
    exact ⟨h.1, h.2.1, h.2.2.1⟩

/-- C11 amended, at the default period of one second: `nohz_enter` writes -1
and `nohz_exit` writes 950000. -/
theorem set_sched_runtime_written_witness :
    nohz_enter (schedFilesOf 1000000) = { ret := 0, written := some (-1) } ∧
    nohz_exit (schedFilesOf 1000000) = { ret := 0, written := some 950000 } :=
  have h := set_sched_runtime_written 1000000 (by decide) (by decide)
  ⟨h.1, (h.2.2.2 (by decide)).1⟩

/-! ### C12 -/

theorem getlinesAux_line (rest : List Char) :
    ∀ (body cur : List Char), '\n' ∉ body →
      getlinesAux (body ++ '\n' :: rest) cur =
        (cur.reverse ++ body ++ ['\n']) :: getlinesAux rest [] := by
  intro body
  induction body with
  | nil => intro cur _; simp [getlinesAux]
  | cons c cs ih =>
    intro cur h
    have hc : c ≠ '\n' := fun e => h (by rw [e]; exact List.mem_cons_self _ _)
    have hcs : '\n' ∉ cs := fun e => h (List.mem_cons_of_mem _ e)
    simp only [List.cons_append, getlinesAux, if_neg hc]
    show getlinesAux (cs ++ '\n' :: rest) (c :: cur) = _
    rw [ih (c :: cur) hcs]
    simp

theorem blanks_no_newline (n : Nat) : '\n' ∉ blanks n := by
  intro h
  have := (List.mem_replicate.mp h).2
  revert this
  decide

theorem renderNat_no_newline (n : Nat) : '\n' ∉ renderNat n := by
  intro h
  exact (renderNat_chars n '\n' h).2 rfl

theorem body_no_newline (l : TimerLine) (h : l.WellFormed) : '\n' ∉ l.body := by
  cases l with
  | header cpu =>
    simp only [TimerLine.body, cpu_key, List.cons_append, List.nil_append, List.mem_cons,
      not_or]
    exact ⟨by decide, by decide, by decide, by decide, by decide, renderNat_no_newline cpu⟩
  | tick indent pad sep value =>
    simp only [TimerLine.body, List.mem_append, List.mem_cons, not_or]
    exact ⟨blanks_no_newline indent, by decide, blanks_no_newline pad, by decide,
      blanks_no_newline sep, renderNat_no_newline value⟩
  | other text => exact h.1

theorem getlines_render (ls : List TimerLine) (h : ∀ l ∈ ls, l.WellFormed) :
    getlines (renderTimerList ls) = ls.map TimerLine.render := by
  induction ls with
  | nil => rfl
  | cons l ls ih =>
    have hb := body_no_newline l (h l (List.mem_cons_self _ _))
    have e : renderTimerList (l :: ls) = l.body ++ '\n' :: renderTimerList ls := by
      simp [renderTimerList, TimerLine.render]
    have ih2 := ih (fun x hx => h x (List.mem_cons_of_mem _ hx))
    unfold getlines at ih2 ⊢
    rw [e, getlinesAux_line _ _ _ hb, ih2]
    simp [TimerLine.render]

theorem dropWhile_blanks (n : Nat) (rest : List Char) :
    (blanks n ++ rest).dropWhile isspace = rest.dropWhile isspace := by
  induction n with
  | zero => rfl
  | succ n ih =>
    have hs : isspace ' ' = true := by decide
    simp only [blanks, List.replicate_succ, List.cons_append, List.dropWhile_cons, hs, if_true]
    exact ih

theorem atoi_space (b : Char) (s : List Char) (hb : isspace b = true) :
    atoi (b :: s) = atoi s := by
  simp only [atoi, strtol, List.dropWhile_cons, hb, if_true]

theorem atoi_blanks (n : Nat) (s : List Char) : atoi (blanks n ++ s) = atoi s := by
  induction n with
  | zero => rfl
  | succ n ih =>
    simp only [blanks, List.replicate_succ, List.cons_append]
    rw [atoi_space ' ' _ (by decide)]
    exact ih

theorem is_cur_cpu_data_header (cpu : Int) (n : Nat) (hn : n < 2 ^ 31) :
    is_cur_cpu_data cpu (TimerLine.header n).render = if cpu = (n : Int) then 1 else 0 := by
  have e : (TimerLine.header n).render =
      'c' :: 'p' :: 'u' :: ':' :: ' ' :: (renderNat n ++ ['\n']) := by
    simp [TimerLine.render, TimerLine.body, cpu_key]
  have hc : isspace 'c' = false := by decide
  rw [e]
  simp only [is_cur_cpu_data, List.dropWhile_cons, hc, Bool.false_eq_true, if_false]
  have ht : List.take 4 ('c' :: 'p' :: 'u' :: ':' :: ' ' :: (renderNat n ++ ['\n'])) = cpu_key :=
    rfl
  have hd : List.drop 4 ('c' :: 'p' :: 'u' :: ':' :: ' ' :: (renderNat n ++ ['\n'])) =
      ' ' :: (renderNat n ++ ['\n']) := rfl
  rw [ht, hd, if_pos rfl, atoi_space ' ' _ (by decide), atoi_renderNat n hn '\n' [] (by decide)]

theorem dropWhile_tick_line (indent : Nat) (rest : List Char) :
    (blanks indent ++ (tick_key ++ rest)).dropWhile isspace = tick_key ++ rest := by
  rw [dropWhile_blanks]
  have hc : isspace '.' = false := by decide
  simp only [tick_key, List.cons_append, List.dropWhile_cons, hc, Bool.false_eq_true, if_false]

theorem is_cur_cpu_data_tick (cpu : Int) (indent pad sep value : Nat) :
    is_cur_cpu_data cpu (TimerLine.tick indent pad sep value).render = 0 := by
  have e : (TimerLine.tick indent pad sep value).render =
      blanks indent ++ (tick_key ++
        (blanks pad ++ ':' :: (blanks sep ++ renderNat value) ++ ['\n'])) := by
    simp [TimerLine.render, TimerLine.body]
  rw [e]
  simp only [is_cur_cpu_data, dropWhile_tick_line]
  have ht : List.take 4 (tick_key ++
      (blanks pad ++ ':' :: (blanks sep ++ renderNat value) ++ ['\n'])) ≠ cpu_key := by
    simp [tick_key, cpu_key]
  rw [if_neg ht]

theorem is_cur_cpu_data_other (cpu : Int) (text : List Char)
    (h : (TimerLine.other text).WellFormed) :
    is_cur_cpu_data cpu (TimerLine.other text).render = 0 := by
  have hn : ¬ ((text ++ ['\n']).dropWhile isspace).take 4 = cpu_key := h.2.1
  simp only [is_cur_cpu_data, TimerLine.render, TimerLine.body, if_neg hn]

theorem get_tick_stopped_other (text : List Char) (h : (TimerLine.other text).WellFormed) :
    get_tick_stopped (TimerLine.other text).render = -1 := by
  have hn : ¬ ((text ++ ['\n']).dropWhile isspace).take 13 = tick_key := h.2.2
  simp only [get_tick_stopped, TimerLine.render, TimerLine.body]
  rw [if_neg (fun hc => hn hc.2)]

theorem dropWhile_to_colon (pad : Nat) (rest : List Char) :
    (tick_key ++ (blanks pad ++ ':' :: rest)).dropWhile (fun c => decide (c ≠ ':')) =
      ':' :: rest := by
  have hb : ∀ n, (blanks n ++ ':' :: rest).dropWhile (fun c => decide (c ≠ ':')) = ':' :: rest := by
    intro n
    induction n with
    | zero => simp [blanks]
    | succ n ih =>
      simp only [blanks, List.replicate_succ, List.cons_append, List.dropWhile_cons]
      rw [if_pos (by decide)]
      exact ih
  simp only [tick_key, List.cons_append, List.nil_append, List.dropWhile_cons]
  simp only [show decide ('.' ≠ ':') = true by decide, show decide ('t' ≠ ':') = true by decide,
    show decide ('i' ≠ ':') = true by decide, show decide ('c' ≠ ':') = true by decide,
    show decide ('k' ≠ ':') = true by decide, show decide ('_' ≠ ':') = true by decide,
    show decide ('s' ≠ ':') = true by decide, show decide ('o' ≠ ':') = true by decide,
    show decide ('p' ≠ ':') = true by decide, show decide ('e' ≠ ':') = true by decide,
    show decide ('d' ≠ ':') = true by decide, if_true]
  exact hb pad

theorem get_tick_stopped_tick (indent pad sep value : Nat) (hv : value < 2 ^ 31) :
    get_tick_stopped (TimerLine.tick indent pad (sep + 1) value).render = (value : Int) := by
  have e : (TimerLine.tick indent pad (sep + 1) value).render =
      blanks indent ++ (tick_key ++
        (blanks pad ++ ':' :: ' ' :: (blanks sep ++ (renderNat value ++ ['\n'])))) := by
    simp [TimerLine.render, TimerLine.body, blanks, List.replicate_succ]
  rw [e]
  have hne : tick_key ++
      (blanks pad ++ ':' :: ' ' :: (blanks sep ++ (renderNat value ++ ['\n']))) ≠ [] := by
    simp [tick_key]
  have htake : List.take 13 (tick_key ++
      (blanks pad ++ ':' :: ' ' :: (blanks sep ++ (renderNat value ++ ['\n'])))) = tick_key := by
    simp [tick_key]
  simp only [get_tick_stopped, dropWhile_tick_line]
  rw [if_pos ⟨hne, htake⟩, dropWhile_to_colon]
  simp only [ne_eq, reduceCtorEq, not_false_eq_true, if_true, List.drop_succ_cons, List.drop_zero]
  rw [atoi_blanks, atoi_renderNat value hv '\n' [] (by decide)]

theorem scan_tick_stopped_section (indent pad sep value : Nat) (hvalue : value < 2 ^ 31)
    (post : List TimerLine) :
    ∀ (mid : List TimerLine), (∀ l ∈ mid, l.WellFormed ∧ l.isOther) →
      scan_tick_stopped
        ((mid ++ TimerLine.tick indent pad (sep + 1) value :: post).map TimerLine.render) =
        (value : Int) := by
  intro mid
  induction mid with
  | nil =>
    intro _
    have hv : (value : Int) ≠ -1 := by omega
    simp only [List.nil_append, List.map_cons, scan_tick_stopped,
      get_tick_stopped_tick indent pad sep value hvalue, if_pos hv]
  | cons l mid ih =>
    intro h
    obtain ⟨hw, ho⟩ := h l (List.mem_cons_self _ _)
    cases l with
    | header cpu => exact absurd ho (by simp [TimerLine.isOther])
    | tick i p s v => exact absurd ho (by simp [TimerLine.isOther])
    | other text =>
      simp only [List.cons_append, List.map_cons, scan_tick_stopped,
        get_tick_stopped_other text hw, ne_eq, not_true_eq_false, if_false]
      exact ih (fun x hx => h x (List.mem_cons_of_mem _ hx))

theorem is_cur_cpu_data_not_header (c : Nat) (l : TimerLine) (hw : l.WellFormed)
    (hne : l ≠ TimerLine.header c) : is_cur_cpu_data (c : Int) l.render = 0 := by
  cases l with
  | header n =>
    rw [is_cur_cpu_data_header _ n hw]
    have hcn : (c : Int) ≠ (n : Int) := by
      intro e
      apply hne
      have : c = n := by exact_mod_cast e
      rw [this]
    rw [if_neg hcn]
  | tick i p s v => exact is_cur_cpu_data_tick _ i p s v
  | other text => exact is_cur_cpu_data_other _ text hw

theorem scan_cpu_skip (c : Nat) (rest : List (List Char)) :
    ∀ (pre : List TimerLine), (∀ l ∈ pre, l.WellFormed ∧ l ≠ TimerLine.header c) →
      scan_cpu (c : Int) (pre.map TimerLine.render ++ rest) = scan_cpu (c : Int) rest := by
  intro pre
  induction pre with
  | nil => intro _; rfl
  | cons l pre ih =>
    intro h
    obtain ⟨hw, hne⟩ := h l (List.mem_cons_self _ _)
    simp only [List.map_cons, List.cons_append, scan_cpu,
      is_cur_cpu_data_not_header c l hw hne, ne_eq, not_true_eq_false, if_false]
    exact ih (fun x hx => h x (List.mem_cons_of_mem _ hx))

/-- C12: take a timer list in the layout of the kernel, whose lines are
`cpu: N` lines, `.tick_stopped` lines (the key, spaces, a colon, at least one
space and the unsigned value the kernel prints) and other lines, the numbers
fitting an `int`.  When the first line `cpu: c` is followed, after other lines
only, by a `.tick_stopped` line of value `V`, `is_tick_stopped(c)` returns `V`,
the value found in the section of core `c`.  When the text has no line
`cpu: c`, and when the file cannot be opened, it returns -1. -/
theorem is_tick_stopped_section (c : Nat) (hc : c < 2 ^ 31) :
    (∀ (pre mid post : List TimerLine) (indent pad sep value : Nat),
      value < 2 ^ 31 →
      (∀ l ∈ pre ++ mid ++ post, l.WellFormed) →
      (∀ l ∈ pre, l ≠ TimerLine.header c) →
      (∀ l ∈ mid, l.isOther) →
      is_tick_stopped
        (some (renderTimerList
          (pre ++ TimerLine.header c ::
            (mid ++ TimerLine.tick indent pad (sep + 1) value :: post)))) c = (value : Int)) ∧
    (∀ ls : List TimerLine, (∀ l ∈ ls, l.WellFormed ∧ l ≠ TimerLine.header c) →
      is_tick_stopped (some (renderTimerList ls)) c = -1) ∧
    is_tick_stopped none c = -1 := by
  refine ⟨?_, ?_, rfl⟩
  · intro pre mid post indent pad sep value hvalue hwf hpre hmid
    have hall : ∀ l ∈ pre ++ TimerLine.header c ::
        (mid ++ TimerLine.tick indent pad (sep + 1) value :: post), l.WellFormed := by
      intro l hl
      simp only [List.mem_append, List.mem_cons] at hl
      rcases hl with hl | rfl | hl | rfl | hl
      · exact hwf l (by simp [hl])
      · exact hc
      · exact hwf l (by simp [hl])
      · exact hvalue
      · exact hwf l (by simp [hl])
    simp only [is_tick_stopped]
    rw [getlines_render _ hall, List.map_append, List.map_cons,
      scan_cpu_skip c _ pre (fun l hl => ⟨hwf l (by simp [hl]), hpre l hl⟩)]
    have hhead : is_cur_cpu_data (c : Int) (TimerLine.header c).render ≠ 0 := by
      rw [is_cur_cpu_data_header _ c hc, if_pos rfl]; decide
    simp only [scan_cpu, if_pos hhead]
    exact scan_tick_stopped_section indent pad sep value hvalue post mid
      (fun l hl => ⟨hwf l (by simp [hl]), hmid l hl⟩)
  · intro ls h
    simp only [is_tick_stopped]
    rw [getlines_render _ (fun l hl => (h l hl).1)]
    have := scan_cpu_skip c [] ls h
    simpa [scan_cpu] using this

/-- C12, at a timer list of two cores in the layout of the kernel: core 1 is
stopped, core 0 is not, core 2 has no section. -/
theorem is_tick_stopped_section_witness :
    is_tick_stopped (some (renderTimerList twoCoreTimerList)) 1 = 1 ∧
    is_tick_stopped (some (renderTimerList twoCoreTimerList)) 0 = 0 ∧
    is_tick_stopped (some (renderTimerList twoCoreTimerList)) 2 = -1 := by
  have h1 := (is_tick_stopped_section 1 (by decide)).1
    [TimerLine.other ['n', 'o', 'w', ' ', 'a', 't', ' ', '7'], TimerLine.header 0,
     TimerLine.other [' ', 'c', 'l', 'o', 'c', 'k', ' ', '0', ':'], TimerLine.tick 2 3 1 0]
    [TimerLine.other [' ', 'c', 'l', 'o', 'c', 'k', ' ', '0', ':']]
    [TimerLine.other [' ', ' ', '.', 'i', 'd', 'l', 'e', '_', 'j', 'i', 'f', 'f', 'i', 'e', 's']]
    2 3 0 1 (by decide) (by decide) (by decide) (by decide)
  have h0 := (is_tick_stopped_section 0 (by decide)).1
    [TimerLine.other ['n', 'o', 'w', ' ', 'a', 't', ' ', '7']]
    [TimerLine.other [' ', 'c', 'l', 'o', 'c', 'k', ' ', '0', ':']]
    [TimerLine.header 1, TimerLine.other [' ', 'c', 'l', 'o', 'c', 'k', ' ', '0', ':'],
     TimerLine.tick 2 3 1 1,
     TimerLine.other [' ', ' ', '.', 'i', 'd', 'l', 'e', '_', 'j', 'i', 'f', 'f', 'i', 'e', 's']]
    2 3 0 0 (by decide) (by decide) (by decide) (by decide)
  have h2 := (is_tick_stopped_section 2 (by decide)).2.1 twoCoreTimerList (by decide)
  exact ⟨h1, h0, h2⟩

/-! ### The line handed to libnuma -/

theorem render_entry_no_newline (e : CpuEntry) : '\n' ∉ e.render := by
  cases e with
  | single n => exact renderNat_no_newline n
  | range lo hi =>
    simp only [CpuEntry.render, List.mem_append, List.mem_cons, not_or]
    exact ⟨renderNat_no_newline lo, by decide, renderNat_no_newline hi⟩

theorem renderCpuList_no_newline : ∀ es : List CpuEntry, '\n' ∉ renderCpuList es
  | [] => by simp [renderCpuList]
  | [e] => by simpa [renderCpuList] using render_entry_no_newline e
  | e :: e2 :: es => by
    have ih := renderCpuList_no_newline (e2 :: es)
    simp only [renderCpuList, List.mem_append, List.mem_cons, not_or]
    exact ⟨render_entry_no_newline e, by decide, ih⟩

theorem renderCpuList_digit_head (e : CpuEntry) (es : List CpuEntry) :
    ∃ d ds, renderCpuList (e :: es) = d :: ds ∧ isdigit d = true := by
  obtain ⟨d, ds, hd⟩ : ∃ d ds, renderNat e.first = d :: ds := by
    cases h : renderNat e.first with
    | nil => exact absurd h (renderNat_ne_nil _)
    | cons d ds => exact ⟨d, ds, rfl⟩
  have hdig : isdigit d = true := (renderNat_chars e.first d (by rw [hd]; simp)).1
  have hstart : ∃ rest, renderCpuList (e :: es) = renderNat e.first ++ rest := by
    cases e with
    | single n =>
      cases es with
      | nil => exact ⟨[], by simp [renderCpuList, CpuEntry.render, CpuEntry.first]⟩
      | cons e2 es =>
        exact ⟨',' :: renderCpuList (e2 :: es),
          by simp [renderCpuList, CpuEntry.render, CpuEntry.first]⟩
    | range lo hi =>
      cases es with
      | nil => exact ⟨'-' :: renderNat hi, by simp [renderCpuList, CpuEntry.render, CpuEntry.first]⟩
      | cons e2 es =>
        exact ⟨'-' :: renderNat hi ++ ',' :: renderCpuList (e2 :: es),
          by simp [renderCpuList, CpuEntry.render, CpuEntry.first]⟩
  obtain ⟨rest, hrest⟩ := hstart
  exact ⟨d, ds ++ rest, by rw [hrest, hd]; rfl, hdig⟩

theorem takeWhile_line : ∀ (line : List Char), '\n' ∉ line →
    strtok_newline (line ++ ['\n']) = line := by
  intro line
  induction line with
  | nil => intro _; simp [strtok_newline]
  | cons c cs ih =>
    intro h
    have hc : c ≠ '\n' := fun e => h (by rw [e]; exact List.mem_cons_self _ _)
    have hcs : '\n' ∉ cs := fun e => h (List.mem_cons_of_mem _ e)
    have := ih hcs
    unfold strtok_newline at this ⊢
    simp only [List.cons_append, List.takeWhile_cons, ne_eq, hc, not_false_eq_true,
      decide_True, if_true, this]

theorem fgets_line (line : List Char) (hnl : '\n' ∉ line) (hlen : line.length ≤ 126) :
    fgets 128 (line ++ ['\n']) = some (line ++ ['\n']) := by
  have hne : line ++ ['\n'] ≠ [] := by simp
  have htake : takeLine 127 (line ++ ['\n']) = line ++ takeLine (127 - line.length) ['\n'] :=
    takeLine_append _ _ _ (fun x hx e => hnl (by rw [← e]; exact hx)) (by omega)
  obtain ⟨m, hm⟩ : ∃ m, 127 - line.length = m + 1 := ⟨126 - line.length, by omega⟩
  simp only [fgets, if_neg hne, Nat.add_one_sub_one, htake, hm, takeLine, if_true]

theorem get_nohz_full_cpu_mask_line (parse : List Char → Option bitmask) (d : Char)
    (ds : List Char) (hd : isdigit d = true) (hnl : '\n' ∉ d :: ds)
    (hlen : (d :: ds).length ≤ 126) :
    get_nohz_full_cpu_mask parse (some (d :: ds ++ ['\n'])) = parse (d :: ds) := by
  have h0 : d ≠ Char.ofNat 0 := by rintro rfl; revert hd; decide
  have h1 : d ≠ '\n' := by rintro rfl; revert hd; decide
  have hf := fgets_line (d :: ds) hnl hlen
  have hs := takeWhile_line (d :: ds) hnl
  simp only [get_nohz_full_cpu_mask, hf, hs]
  rw [if_neg]
  simp only [List.cons_append, List.head?_cons, Option.some.injEq, not_or]
  exact ⟨h0, h1⟩

theorem is_nohz_cpu_of_mask (parse : List Char → Option bitmask) (file : Option (List Char))
    (c : bitmask) (core : Nat) (hcore : core < 2 ^ 31)
    (hm : get_nohz_full_cpu_mask parse file = some c) :
    is_nohz_cpu parse file core = if core ≠ 0 ∧ c.contains core then 1 else 0 := by
  have h := is_nohz_cpu_iff parse file core hcore
  by_cases hc : core ≠ 0 ∧ c.contains core
  · rw [if_pos hc]
    exact h.1.mpr ⟨c, hm, hc.1, hc.2⟩
  · rw [if_neg hc]
    apply h.2.1
    intro h1
    obtain ⟨c2, hm2, h0, hcont⟩ := h.1.mp h1
    rw [hm] at hm2
    simp only [Option.some.injEq] at hm2
    subst hm2
    exact hc ⟨h0, hcont⟩

theorem get_nohz_full_cpu_mask_list (parse : List Char → Option bitmask) (e : CpuEntry)
    (es : List CpuEntry) (hlen : (renderCpuList (e :: es)).length ≤ 126) :
    get_nohz_full_cpu_mask parse (some (renderCpuList (e :: es) ++ ['\n'])) =
      parse (renderCpuList (e :: es)) := by
  obtain ⟨d, ds, hr, hd⟩ := renderCpuList_digit_head e es
  have hnl := renderCpuList_no_newline (e :: es)
  rw [hr] at hnl hlen ⊢
  exact get_nohz_full_cpu_mask_line parse d ds hd hnl hlen

set_option maxRecDepth 20000 in
theorem evenCores_facts :
    renderCpuList evenCores ++ ['\n'] = evenCoresFile ∧
    renderCpuList (evenCores.take 44) = evenCoresCut ∧
    fgets 128 evenCoresFile = some evenCoresCut ∧
    get_nohz_full_cpu_mask (parseOnly evenCoresCut evenCutMask) (some evenCoresFile) =
      some evenCutMask ∧
    ∀ parse, get_nohz_full_cpu_mask parse (some evenCoresFile) = parse evenCoresCut := by
  have hf : fgets 128 evenCoresFile = some evenCoresCut := by decide
  have hs : strtok_newline evenCoresCut = evenCoresCut := by decide
  have hh : ¬ (evenCoresCut.head? = some (Char.ofNat 0) ∨ evenCoresCut.head? = some '\n') := by
    decide
  have hall : ∀ parse, get_nohz_full_cpu_mask parse (some evenCoresFile) = parse evenCoresCut := by
    intro parse
    simp only [get_nohz_full_cpu_mask, hf, hs, if_neg hh]
  refine ⟨?_, ?_, hf, ?_, hall⟩
  · simp [evenCores, evenCoresFile, renderCpuList, CpuEntry.render, renderNat, digitChar]
  · simp [evenCores, evenCoresCut, renderCpuList, CpuEntry.render, renderNat, digitChar]
  · rw [hall]; simp [parseOnly]

set_option maxRecDepth 20000 in
theorem evenCutMask_spec (n : Nat) :
    evenCutMask.contains n ↔ ∃ x ∈ evenCores.take 44, x.lists n := by
  by_cases hn : n ≤ 88
  · interval_cases n <;> decide
  · have hl : ∀ x ∈ evenCores.take 44, x.last ≤ 88 := by decide
    constructor
    · intro h
      exfalso
      have h2 := h.2
      simp only [evenCutMask, Bool.and_eq_true, decide_eq_true_eq] at h2
      exact hn h2.2
    · rintro ⟨x, hx, h1⟩
      exfalso
      have := hl x hx
      unfold CpuEntry.lists at h1
      omega

theorem twoThreeMask_spec (n : Nat) :
    twoThreeMask.contains n ↔ ∃ x ∈ [CpuEntry.range 2 3], x.lists n := by
  simp only [bitmask.contains, twoThreeMask, Bool.or_eq_true, decide_eq_true_eq,
    List.mem_singleton, exists_eq_left, CpuEntry.lists, CpuEntry.first, CpuEntry.last]
  omega

set_option maxRecDepth 20000 in
theorem evenCores_members :
    CpuEntry.single 90 ∈ evenCores ∧ CpuEntry.single 88 ∈ evenCores ∧
    evenCoresFile.length = 143 ∧
    (∃ x ∈ evenCores.take 44, x.lists 88) ∧ ¬ (∃ x ∈ evenCores.take 44, x.lists 90) := by
  refine ⟨by decide, by decide, by decide, by decide, by decide⟩

theorem zeroThreeMask_spec (n : Nat) :
    zeroThreeMask.contains n ↔ ∃ x ∈ [CpuEntry.range 0 3], x.lists n := by
  simp only [bitmask.contains, zeroThreeMask, decide_eq_true_eq,
    List.mem_singleton, exists_eq_left, CpuEntry.lists, CpuEntry.first, CpuEntry.last]
  omega

/-! ### C6 -/

/-- C6: `is_nohz_cpu` on the file `/sys/devices/system/cpu/nohz_full`, whose one
line is the rendering of a core list followed by a newline; libnuma is a
parser that yields, for the text it is handed, a mask holding exactly the cores
that text lists.

For a line of at most 126 characters the function hands libnuma the whole list
without its newline and returns 1 exactly when the core is non-zero and listed,
0 otherwise: for core 0, for a core that is not listed, for a negative number,
when libnuma rejects the line, and when the file is absent, empty or holds an
empty line.

For a longer line it does not: `get_nohz_full_cpu_mask`, documented as
"Retrieves all CPUs listed as nohz_full", reads the line into a buffer of 128
bytes.  The list of the even cores 2, 4, ..., 98 takes 142 characters; `fgets`
keeps the first 127, the list 2, 4, ..., 88, and that is the text libnuma is
handed.  Core 88 is reported valid; core 90, non-zero and listed in the file, is
reported not valid, whether libnuma accepts that text or rejects it. -/
theorem is_nohz_cpu_listed :
    (∀ (parse : List Char → Option bitmask) (e : CpuEntry) (es : List CpuEntry),
      (renderCpuList (e :: es)).length ≤ 126 →
      (∀ (c : bitmask), parse (renderCpuList (e :: es)) = some c →
        (∀ n, c.contains n ↔ ∃ x ∈ e :: es, x.lists n) →
        (∀ core : Nat, core < 2 ^ 31 →
          (is_nohz_cpu parse (some (renderCpuList (e :: es) ++ ['\n'])) core = 1 ↔
            core ≠ 0 ∧ ∃ x ∈ e :: es, x.lists core) ∧
          (is_nohz_cpu parse (some (renderCpuList (e :: es) ++ ['\n'])) core ≠ 1 →
            is_nohz_cpu parse (some (renderCpuList (e :: es) ++ ['\n'])) core = 0)) ∧
        (∀ cpu : Int, -(2 ^ 31) ≤ cpu → cpu < 0 → c.size ≤ 2 ^ 31 →
          is_nohz_cpu parse (some (renderCpuList (e :: es) ++ ['\n'])) cpu = 0)) ∧
      (parse (renderCpuList (e :: es)) = none →
        ∀ cpu : Int, is_nohz_cpu parse (some (renderCpuList (e :: es) ++ ['\n'])) cpu = 0)) ∧
    (∀ (parse : List Char → Option bitmask) (cpu : Int),
      is_nohz_cpu parse none cpu = 0 ∧
      is_nohz_cpu parse (some []) cpu = 0 ∧
      is_nohz_cpu parse (some (renderCpuList [] ++ ['\n'])) cpu = 0) ∧
    (renderCpuList evenCores ++ ['\n'] = evenCoresFile ∧
      (renderCpuList evenCores).length = 142 ∧
      fgets 128 evenCoresFile = some evenCoresCut ∧
      renderCpuList (evenCores.take 44) = evenCoresCut ∧
      CpuEntry.single 90 ∈ evenCores ∧ (CpuEntry.single 90).lists 90 ∧
      CpuEntry.single 88 ∈ evenCores ∧ (CpuEntry.single 88).lists 88 ∧
      (∀ parse : List Char → Option bitmask,
        get_nohz_full_cpu_mask parse (some evenCoresFile) = parse evenCoresCut) ∧
      (∀ parse : List Char → Option bitmask, parse evenCoresCut = none →
        is_nohz_cpu parse (some evenCoresFile) 90 = 0) ∧
      ∀ (parse : List Char → Option bitmask) (c : bitmask),
        parse evenCoresCut = some c →
        (∀ n, c.contains n ↔ ∃ x ∈ evenCores.take 44, x.lists n) →
        is_nohz_cpu parse (some evenCoresFile) 88 = 1 ∧
        is_nohz_cpu parse (some evenCoresFile) 90 = 0) := by
  refine ⟨?_, ?_, ?_⟩
  · intro parse e es hlen
    have hm := get_nohz_full_cpu_mask_list parse e es hlen
    refine ⟨?_, ?_⟩
    · intro c hc hspec
      rw [hc] at hm
      refine ⟨?_, ?_⟩
      · intro core hcore
        have h := is_nohz_cpu_of_mask parse _ c core hcore hm
        rw [h]
        refine ⟨?_, ?_⟩
        · rw [← hspec core]
          by_cases hx : core ≠ 0 ∧ c.contains core
          · rw [if_pos hx]; exact ⟨fun _ => hx, fun _ => rfl⟩
          · rw [if_neg hx]; exact ⟨fun h0 => absurd h0 (by decide), fun h0 => absurd h0 hx⟩
        · intro h1
          by_cases hx : core ≠ 0 ∧ c.contains core
          · exact absurd (if_pos hx) h1
          · exact if_neg hx
      · intro cpu hlo hneg hsize
        exact (is_nohz_cpu_iff parse _ 0 (by decide)).2.2.2.2.2.2.2.2 cpu hlo hneg
          (fun c2 h2 => by rw [hm] at h2; cases h2; exact hsize)
    · intro hnone cpu
      rw [hnone] at hm
      simp only [is_nohz_cpu, hm]
  · intro parse cpu
    refine ⟨?_, ?_, ?_⟩
    · simp [is_nohz_cpu, get_nohz_full_cpu_mask]
    · simp [is_nohz_cpu, get_nohz_full_cpu_mask, fgets]
    · simp [is_nohz_cpu, get_nohz_full_cpu_mask, fgets, renderCpuList, takeLine]
  · obtain ⟨h1, h2, h3, _, hall⟩ := evenCores_facts
    obtain ⟨m90, m88, hlen, l88, l90⟩ := evenCores_members
    refine ⟨h1, ?_, h3, h2, m90, by decide, m88, by decide, hall, ?_, ?_⟩
    · have := congrArg List.length h1
      simp only [List.length_append, List.length_singleton] at this
      rw [hlen] at this
      omega
    · intro parse hnone
      have hm := hall parse
      rw [hnone] at hm
      simp only [is_nohz_cpu, hm]
    · intro parse c hc hspec
      have hm := hall parse
      rw [hc] at hm
      refine ⟨?_, ?_⟩
      · have h := is_nohz_cpu_of_mask parse _ c 88 (by decide) hm
        rw [show ((88 : Nat) : Int) = 88 from rfl] at h
        rw [h, if_pos]
        exact ⟨by decide, (hspec 88).mpr l88⟩
      · have h := is_nohz_cpu_of_mask parse _ c 90 (by decide) hm
        rw [show ((90 : Nat) : Int) = 90 from rfl] at h
        rw [h, if_neg]
        rintro ⟨_, hx⟩
        exact l90 ((hspec 90).mp hx)

/-- C6 at two lists, with a parser that accepts only the text it is expected to
be handed.  For `2-3` that text is the whole list: core 2 is valid, cores 0 and
4 are not.  For the even cores 2, 4, ..., 98 it is the first 127 characters,
through 88: core 88 is valid and core 90 is not. -/
theorem is_nohz_cpu_listed_witness :
    (is_nohz_cpu (parseOnly ['2', '-', '3'] twoThreeMask)
        (some (renderCpuList [CpuEntry.range 2 3] ++ ['\n'])) ((2 : Nat) : Int) = 1 ↔
      2 ≠ 0 ∧ ∃ x ∈ [CpuEntry.range 2 3], x.lists 2) ∧
    is_nohz_cpu (parseOnly ['2', '-', '3'] twoThreeMask) (some ['2', '-', '3', '\n']) 2 = 1 ∧
    is_nohz_cpu (parseOnly ['2', '-', '3'] twoThreeMask) (some ['2', '-', '3', '\n']) 0 = 0 ∧
    is_nohz_cpu (parseOnly ['2', '-', '3'] twoThreeMask) (some ['2', '-', '3', '\n']) 4 = 0 ∧
    is_nohz_cpu (parseOnly evenCoresCut evenCutMask) (some evenCoresFile) 88 = 1 ∧
    is_nohz_cpu (parseOnly evenCoresCut evenCutMask) (some evenCoresFile) 90 = 0 := by
  have hr : renderCpuList [CpuEntry.range 2 3] = ['2', '-', '3'] := by
    simp [renderCpuList, CpuEntry.render, renderNat, digitChar]
  have hp : parseOnly ['2', '-', '3'] twoThreeMask (renderCpuList [CpuEntry.range 2 3]) =
      some twoThreeMask := by rw [hr]; simp [parseOnly]
  have he := is_nohz_cpu_listed.2.2.2.2.2.2.2.2.2.2.2.2 (parseOnly evenCoresCut evenCutMask)
    evenCutMask (by simp [parseOnly]) evenCutMask_spec
  exact ⟨((is_nohz_cpu_listed.1 (parseOnly ['2', '-', '3'] twoThreeMask) (CpuEntry.range 2 3) []
      (by rw [hr]; decide)).1 twoThreeMask hp twoThreeMask_spec).1 2 (by decide) |>.1,
    by decide, by decide, by decide, he.1, he.2⟩

/-! ### C7 -/

/-- C7: `get_nohz_full_cpu` on the file `/sys/devices/system/cpu/nohz_full`,
whose one line is the rendering of a core list followed by a newline.  The
function is documented as "Finds the first nohz_full CPU.  Returns nohz_full
CPU if found, -1 if none found", and `main` of tif_example.c reads its -1 as
"no CPU was setup as nohz_full".

At the file `0-3` the function returns -1, although the list has an entry, its
lowest-numbered core is core 0, and `is_nohz_cpu` on the same file reports the
cores 1, 2 and 3 valid: the test `if (c)` on the value of `atoi` takes core 0
for "no number read".

Everywhere else the function does what the claim says: for a list in ascending
order whose first number is not 0 (and fits an `int`) it returns that number,
the lowest-numbered core of the list; it returns -1 when the file cannot be
opened, when it is empty, and when the list has no entry.  For every list that
begins with core 0 it returns -1. -/
theorem get_nohz_full_cpu_core_zero :
    (renderCpuList [CpuEntry.range 0 3] ++ ['\n'] = ['0', '-', '3', '\n'] ∧
      Ascending [CpuEntry.range 0 3] ∧
      (CpuEntry.range 0 3).lists 0 ∧
      get_nohz_full_cpu (some ['0', '-', '3', '\n']) = -1 ∧
      ∀ (parse : List Char → Option bitmask) (c : bitmask),
        parse (renderCpuList [CpuEntry.range 0 3]) = some c →
        (∀ n, c.contains n ↔ ∃ x ∈ [CpuEntry.range 0 3], x.lists n) →
        is_nohz_cpu parse (some ['0', '-', '3', '\n']) 1 = 1 ∧
        is_nohz_cpu parse (some ['0', '-', '3', '\n']) 2 = 1 ∧
        is_nohz_cpu parse (some ['0', '-', '3', '\n']) 3 = 1) ∧
    (∀ (e : CpuEntry) (es : List CpuEntry), Ascending (e :: es) → e.first < 2 ^ 31 →
      e.lists e.first ∧
      (∀ e2 ∈ e :: es, ∀ m, e2.lists m → e.first ≤ m) ∧
      (e.first ≠ 0 →
        get_nohz_full_cpu (some (renderCpuList (e :: es) ++ ['\n'])) = (e.first : Int)) ∧
      (e.first = 0 →
        get_nohz_full_cpu (some (renderCpuList (e :: es) ++ ['\n'])) = -1)) ∧
    get_nohz_full_cpu none = -1 ∧
    get_nohz_full_cpu (some []) = -1 ∧
    get_nohz_full_cpu (some (renderCpuList [] ++ ['\n'])) = -1 := by
  have hr : renderCpuList [CpuEntry.range 0 3] = ['0', '-', '3'] := by
    simp [renderCpuList, CpuEntry.render, renderNat, digitChar]
  refine ⟨⟨by rw [hr]; rfl, ⟨by simp [CpuEntry.first, CpuEntry.last], by simp⟩,
    by simp [CpuEntry.lists, CpuEntry.first, CpuEntry.last], by decide, ?_⟩, ?_,
    by decide, by decide, by decide⟩
  · intro parse c hc hspec
    have hm : get_nohz_full_cpu_mask parse (some ['0', '-', '3', '\n']) = some c := by
      have h := get_nohz_full_cpu_mask_list parse (CpuEntry.range 0 3) [] (by rw [hr]; decide)
      rw [hr] at h hc
      rw [← hc]; exact h
    have hin : ∀ n : Nat, n ≠ 0 → n ≤ 3 → c.contains n := fun n _ h3 =>
      (hspec n).mpr ⟨_, List.mem_singleton_self _,
        by simp [CpuEntry.lists, CpuEntry.first, CpuEntry.last, h3]⟩
    have key : ∀ n : Nat, n ≠ 0 → n ≤ 3 →
        is_nohz_cpu parse (some ['0', '-', '3', '\n']) (n : Int) = 1 := by
      intro n h0 h3
      rw [is_nohz_cpu_of_mask parse _ c n (by omega) hm, if_pos ⟨h0, hin n h0 h3⟩]
    exact ⟨key 1 (by decide) (by decide), key 2 (by decide) (by decide),
      key 3 (by decide) (by decide)⟩
  · intro e es hasc hint
    obtain ⟨h1, h2, h3, _⟩ := get_nohz_full_cpu_first e es hasc hint
    refine ⟨h1, h2, ?_, ?_⟩
    · intro h0; rw [h3, if_neg h0]
    · intro h0; rw [h3, if_pos h0]

/-- C7 at two lists: `2-5,7` gives core 2, the lowest-numbered core of the list;
`0,2` begins with core 0 and gives -1 although core 2 is listed; and on the file
`0-3`, with a parser that accepts only that list, core 1 is a valid nohz core. -/
theorem get_nohz_full_cpu_core_zero_witness :
    get_nohz_full_cpu
        (some (renderCpuList [CpuEntry.range 2 5, CpuEntry.single 7] ++ ['\n'])) = 2 ∧
    get_nohz_full_cpu (some ['2', '-', '5', ',', '7', '\n']) = 2 ∧
    get_nohz_full_cpu
        (some (renderCpuList [CpuEntry.single 0, CpuEntry.single 2] ++ ['\n'])) = -1 ∧
    get_nohz_full_cpu (some ['0', ',', '2', '\n']) = -1 ∧
    is_nohz_cpu (parseOnly ['0', '-', '3'] zeroThreeMask) (some ['0', '-', '3', '\n']) 1 = 1 :=
  ⟨(get_nohz_full_cpu_core_zero.2.1 (CpuEntry.range 2 5) [CpuEntry.single 7]
      ⟨by simp [CpuEntry.first, CpuEntry.last], by simp [CpuEntry.first, CpuEntry.last]⟩
      (by simp [CpuEntry.first])).2.2.1 (by simp [CpuEntry.first]),
   by decide,
   (get_nohz_full_cpu_core_zero.2.1 (CpuEntry.single 0) [CpuEntry.single 2]
      ⟨by simp [CpuEntry.first, CpuEntry.last], by simp [CpuEntry.first, CpuEntry.last]⟩
      (by simp [CpuEntry.first])).2.2.2 (by simp [CpuEntry.first]),
   by decide,
   (get_nohz_full_cpu_core_zero.1.2.2.2.2 (parseOnly ['0', '-', '3'] zeroThreeMask)
      zeroThreeMask
      (by simp [parseOnly, renderCpuList, CpuEntry.render, renderNat, digitChar])
      zeroThreeMask_spec).1⟩

end Tif
